import Mathlib

/-!
# svn-fast-export.c

A shallow embedding of `export_revision` and `crawl_revisions` of
`svn-fast-export.c`, and theorems about the stream they write.

Conventions of the embedding.

* A C string is the list of its bytes before the terminating NUL.
* `stdout` and `stderr` are the byte sequences written so far; every
  `fprintf` appends to one of them.
* The Subversion and APR libraries and the C library are not part of the
  program. What the repository answers is data of the model: `svn_fs_t`,
  `svn_fs_root_t` and `libsvn` hold, for every call the program makes, either
  the value or the `svn_error_t` the library returns. The functions and
  macros the program uses (`strncmp`, `fprintf`, `apr_array_pstrcat`,
  `SVN_INT_ERR`) are written after their documentation.
* A function whose behaviour may be undefined returns an `Option`; `none` is
  undefined behaviour. The only place is line 110, where the change lines are
  the format string of `fprintf`.
* `svn_revnum_t` values are revision numbers of a repository; they are taken
  in `Nat`. `mark` is an `unsigned int`; its increment is taken modulo `2^32`.
* The APR pools (`svn_pool_create`, `svn_pool_clear`, `svn_pool_destroy`) are
  memory management; they write nothing and are left out.
* `dump_blob` is never called: its only call, at line 99, is commented out.
  It is not embedded. `main` only checks the argument count and calls
  `crawl_revisions`.
-/

namespace SvnFastExport

/-! ## Library data -/

/-- An error object of the Subversion library. `report` is the text
`svn_handle_error2 (err, stderr, FALSE, "svn: ")` prints for it. -/
structure svn_error_t where
  report : List Char

/-- The change kinds of `svn_fs.h`. -/
inductive svn_fs_path_change_kind_t
  | svn_fs_path_change_modify
  | svn_fs_path_change_add
  | svn_fs_path_change_delete
  | svn_fs_path_change_replace
  | svn_fs_path_change_reset
deriving DecidableEq

open svn_fs_path_change_kind_t

/-- The value stored in the `changes` hash for one path. -/
structure svn_fs_path_change_t where
  change_kind : svn_fs_path_change_kind_t
deriving DecidableEq

/-- A revision root. `paths_changed` is the answer of `svn_fs_paths_changed`:
the entries of the hash in the order `apr_hash_first` / `apr_hash_next`
enumerate them. `is_dir` is the answer of `svn_fs_is_dir` for a path,
`file_contents` the bytes `svn_fs_file_contents` would stream. -/
structure svn_fs_root_t where
  paths_changed : Except svn_error_t (List (List Char × svn_fs_path_change_t))
  is_dir : List Char → Except svn_error_t Bool
  file_contents : List Char → Except svn_error_t (List Char)

/-- A filesystem: the answers of `svn_fs_youngest_rev`,
`svn_fs_revision_root` and `svn_fs_revision_proplist`. -/
structure svn_fs_t where
  youngest_rev : Except svn_error_t Nat
  revision_root : Nat → Except svn_error_t svn_fs_root_t
  revision_proplist : Nat → Except svn_error_t Unit

/-- A repository handle; `svn_repos_fs` reads its filesystem. -/
structure svn_repos_t where
  fs : svn_fs_t

/-- The answers of `svn_repos_open` and `svn_fs_initialize`. -/
structure libsvn where
  svn_repos_open : List Char → Except svn_error_t svn_repos_t
  svn_fs_initialize : Except svn_error_t Unit

/-! ## The two output streams -/

/-- The bytes written so far to standard output and to standard error. -/
structure Streams where
  stdout : List Char
  stderr : List Char
deriving DecidableEq

/-- Append bytes to standard output. -/
def Streams.out (io : Streams) (text : List Char) : Streams :=
  { io with stdout := io.stdout ++ text }

/-- Append bytes to standard error. -/
def Streams.err (io : Streams) (text : List Char) : Streams :=
  { io with stderr := io.stderr ++ text }

/-! ## C library functions the program calls -/

/-- The macro `TRUNK`. -/
def TRUNK : List Char := "/trunk/".toList

/-- The status `EXIT_FAILURE` of `stdlib.h`. -/
def EXIT_FAILURE : Int := 1

/-- The function `strlen`. -/
def strlen (s : List Char) : Nat := s.length

/-- The function `strncmp`: compares at most `n` bytes, the end of a string
counting as the byte 0; the result is the difference of the first two bytes
that differ, 0 when there is none. -/
def strncmp : List Char → List Char → Nat → Int
  | _, _, 0 => 0
  | [], [], _ + 1 => 0
  | [], b :: _, _ + 1 => 0 - (b.toNat : Int)
  | a :: _, [], _ + 1 => (a.toNat : Int)
  | a :: as, b :: bs, n + 1 =>
    if a = b then strncmp as bs n else (a.toNat : Int) - (b.toNat : Int)

/-- The conversions `%u` and, for a value that is not negative, `%li`:
the decimal digits. -/
def decimal (n : Nat) : List Char := Nat.toDigits 10 n

/-- A call `fprintf (stream, fmt)` without further arguments. Ordinary bytes
are copied, `%%` writes one `%`. Any other conversion specification would
read an argument that was not passed: the behaviour is undefined, `none`. -/
def fprintf_format_only : List Char → Option (List Char)
  | [] => some []
  | c :: rest =>
    if c = Char.ofNat 37 then
      match rest with
      | d :: rest2 =>
        if d = Char.ofNat 37 then (fprintf_format_only rest2).map (fun t => d :: t)
        else none
      | [] => none
    else (fprintf_format_only rest).map (fun t => c :: t)

/-- The function `apr_array_pstrcat (pool, arr, sep)`: the strings of the
array, with `sep` between two neighbours. -/
def apr_array_pstrcat : List (List Char) → Char → List Char
  | [], _ => []
  | [s], _ => s
  | s :: t :: rest, sep => s ++ sep :: apr_array_pstrcat (t :: rest) sep

/-- The macro `SVN_ERR (expr)` when `expr` yields the error `e`. Lines 27-28
define it as `SVN_INT_ERR`, the macro of `svn_error.h` of Subversion, whose
documentation reads: evaluate `expr`; if it yields an error, handle that error
and return `EXIT_FAILURE`. It handles the error by
`svn_handle_error2 (err, stderr, FALSE, "svn: ")`, which prints the report on
standard error and, `fatal` being `FALSE`, does not end the process. The pair
is the streams after the report and the status the enclosing function
returns. -/
def SVN_ERR (io : Streams) (e : svn_error_t) : Streams × Int :=
  (io.err e.report, EXIT_FAILURE)

/-! ## export_revision -/

/-- The variables of `export_revision` that its loop changes: the array
`file_changes`, the counter `mark`, and the streams. -/
structure LoopState where
  file_changes : List (List Char)
  mark : Nat
  io : Streams
deriving DecidableEq

/-- The test of line 90: the record is passed over (`continue`) when it is
a directory or `strncmp` finds a difference with `TRUNK`. -/
def skip_test (is_dir : Bool) (path : List Char) : Bool :=
  is_dir || strncmp TRUNK path (strlen TRUNK) != 0

/-- The body of the loop after `svn_fs_is_dir` has answered (lines 90-100). -/
def loop_body (is_dir : Bool) (path : List Char) (change : svn_fs_path_change_t)
    (st : LoopState) : LoopState :=
  if skip_test is_dir path then st
  else if change.change_kind = svn_fs_path_change_delete then
    { st with file_changes := st.file_changes ++
        ["D ".toList ++ path.drop (strlen TRUNK)] }
  else
    { file_changes := st.file_changes ++
        ["M 644 :".toList ++ decimal st.mark ++ " ".toList ++ path.drop (strlen TRUNK)]
      io := st.io.out ("blob\nmark :".toList ++ decimal st.mark ++ "\n".toList)
      mark := (st.mark + 1) % 2 ^ 32 }

/-- The loop of lines 82-101 over the entries of the hash. It stops at the
first entry for which `svn_fs_is_dir` fails, and hands back that error. -/
def export_loop (root_obj : svn_fs_root_t) :
    List (List Char × svn_fs_path_change_t) → LoopState → LoopState × Option svn_error_t
  | [], st => (st, none)
  | (path, change) :: rest, st =>
    match root_obj.is_dir path with
    | .error e => (st, some e)
    | .ok is_dir => export_loop root_obj rest (loop_body is_dir path change st)

/-- Lines 103-117: what `export_revision` does after the loop. -/
def export_finish (st : LoopState) : Option (Streams × Int) :=
  if st.file_changes.length = 0 then
    some (st.io.err "skipping.\n".toList, 0)
  else
    match fprintf_format_only (apr_array_pstrcat st.file_changes (Char.ofNat 10)) with
    | none => none
    | some body =>
      some ((((st.io.out "commit refs/heads/master\n".toList).out body).out
        "\n\n".toList).err "done!\n".toList, 0)

/-- The function `export_revision`, from the streams before the call to the
streams after it and the status returned; `none` when the behaviour is
undefined. -/
def export_revision (rev : Nat) (fs : svn_fs_t) (io : Streams) : Option (Streams × Int) :=
  let io1 := io.err ("Exporting revision ".toList ++ decimal rev ++ "... ".toList)
  match fs.revision_root rev with
  | .error e => some (SVN_ERR io1 e)
  | .ok root_obj =>
    match root_obj.paths_changed with
    | .error e => some (SVN_ERR io1 e)
    | .ok changes =>
      match fs.revision_proplist rev with
      | .error e => some (SVN_ERR io1 e)
      | .ok _ =>
        match export_loop root_obj changes { file_changes := [], mark := 1, io := io1 } with
        | (st, some e) => some (SVN_ERR st.io e)
        | (st, none) => export_finish st

/-! ## crawl_revisions -/

/-- The loop of lines 140-143: `rev` runs while `rev <= max_rev`; the status
of `export_revision` is not looked at. -/
def crawl_loop (fs : svn_fs_t) (max_rev : Nat) (rev : Nat) (io : Streams) : Option Streams :=
  if rev ≤ max_rev then
    match export_revision rev fs io with
    | none => none
    | some (io1, _) => crawl_loop fs max_rev (rev + 1) io1
  else some io
termination_by max_rev + 1 - rev
decreasing_by omega

/-- The function `crawl_revisions`. -/
def crawl_revisions (lib : libsvn) (repos_path : List Char) (io : Streams) :
    Option (Streams × Int) :=
  match lib.svn_repos_open repos_path with
  | .error e => some (SVN_ERR io e)
  | .ok repos =>
    match lib.svn_fs_initialize with
    | .error e => some (SVN_ERR io e)
    | .ok _ =>
      match repos.fs.youngest_rev with
      | .error e => some (SVN_ERR io e)
      | .ok youngest_rev =>
        match crawl_loop repos.fs youngest_rev 1 io with
        | none => none
        | some io1 => some (io1, 0)

/-! ## Vocabulary of the statements

The definitions below are not part of the program. They name, in the words of
the output protocol, the texts and counts the theorems speak about. -/

/-- The path below the trunk, `path + strlen(TRUNK)` in the source. -/
def relativize (path : List Char) : List Char := path.drop (strlen TRUNK)

/-- The change line of a deletion: `D <relative-path>`. -/
def D_line (rel : List Char) : List Char := "D ".toList ++ rel

/-- The change line of an addition or modification: `M 644 :<N> <relative-path>`. -/
def M_line (N : Nat) (rel : List Char) : List Char :=
  "M 644 :".toList ++ decimal N ++ " ".toList ++ rel

/-- The blob directive the program writes for the mark `N`: the line `blob`
and the line `mark :<N>`. -/
def blob_text (N : Nat) : List Char := "blob\nmark :".toList ++ decimal N ++ "\n".toList

/-- The blob directives with the marks 1, 2, ..., k, in this order. -/
def blob_lines (k : Nat) : List Char :=
  (List.map blob_text (List.range' 1 k)).flatten

/-- The text of a commit directive whose change lines are printed as `body`. -/
def commit_text (body : List Char) : List Char :=
  "commit refs/heads/master\n".toList ++ body ++ "\n\n".toList

/-- The progress text `Exporting revision <N>... ` of line 72. -/
def banner (rev : Nat) : List Char :=
  "Exporting revision ".toList ++ decimal rev ++ "... ".toList

/-- A change line that begins with `M 644 :`. -/
def is_M_line (line : List Char) : Bool := "M 644 :".toList.isPrefixOf line

/-- The record is in scope: not a directory (`dir` is the directory flag of a
path) and its path begins with the bytes of `TRUNK`. -/
def in_scope (dir : List Char → Bool) (e : List Char × svn_fs_path_change_t) : Bool :=
  !dir e.1 && TRUNK.isPrefixOf e.1

/-- The record is of kind Deleted. -/
def is_delete (e : List Char × svn_fs_path_change_t) : Bool :=
  decide (e.2.change_kind = svn_fs_path_change_delete)

/-- The in-scope records whose kind is not Deleted, in the order of the
change-set: the records a blob is written for. -/
def blob_entries (dir : List Char → Bool) (changes : List (List Char × svn_fs_path_change_t)) :
    List (List Char × svn_fs_path_change_t) :=
  (changes.filter (in_scope dir)).filter (fun e => !is_delete e)

/-- The number of in-scope records whose kind is not Deleted. -/
def blob_count (dir : List Char → Bool) (changes : List (List Char × svn_fs_path_change_t)) : Nat :=
  (blob_entries dir changes).length

/-- The change lines of a list of in-scope records when the marks are given
out consecutively from `m`: a `D` line for a deletion, else an `M` line with
the next mark. -/
def change_lines : Nat → List (List Char × svn_fs_path_change_t) → List (List Char)
  | _, [] => []
  | m, e :: rest =>
    if is_delete e then D_line (relativize e.1) :: change_lines m rest
    else M_line m (relativize e.1) :: change_lines (m + 1) rest

/-- The revision is read without access failure: the library hands out the
revision root `root_obj`, the change-set `changes`, the revision properties,
and for every path of the change-set its directory flag, `dir`. -/
def no_access_failure (fs : svn_fs_t) (rev : Nat) (root_obj : svn_fs_root_t)
    (changes : List (List Char × svn_fs_path_change_t)) (dir : List Char → Bool) : Prop :=
  fs.revision_root rev = .ok root_obj ∧ root_obj.paths_changed = .ok changes ∧
    fs.revision_proplist rev = .ok () ∧ ∀ e ∈ changes, root_obj.is_dir e.1 = .ok (dir e.1)

/-- One of the accesses of `export_revision` fails for the revision: the
revision root, the change-set, the revision properties, or the directory
status of a path of the change-set. -/
def access_failure (fs : svn_fs_t) (rev : Nat) : Prop :=
  (∃ e, fs.revision_root rev = .error e) ∨
  (∃ root_obj e, fs.revision_root rev = .ok root_obj ∧ root_obj.paths_changed = .error e) ∨
  (∃ e, fs.revision_proplist rev = .error e) ∨
  (∃ root_obj changes entry e, fs.revision_root rev = .ok root_obj ∧
    root_obj.paths_changed = .ok changes ∧ entry ∈ changes ∧
    root_obj.is_dir entry.1 = .error e)

/-- The streams `a` followed by what `b` holds. -/
def Streams.append (a b : Streams) : Streams :=
  { stdout := a.stdout ++ b.stdout, stderr := a.stderr ++ b.stderr }

/-- The lines of a stream, split at the newlines; `cur` is the part of the
current line already read. -/
def stream_lines : List Char → List Char → List (List Char)
  | cur, [] => if cur = [] then [] else [cur]
  | cur, c :: rest =>
    if c = Char.ofNat 10 then cur :: stream_lines [] rest else stream_lines (cur ++ [c]) rest

/-- The marks of the `mark :<N>` lines of a stream, in the order of the
stream: what follows `mark :` on each line that begins so. -/
def mark_lines (out : List Char) : List (List Char) :=
  ((stream_lines [] out).filter (fun l => "mark :".toList.isPrefixOf l)).map
    (fun l => l.drop 6)

/-- The number a string of decimal digits denotes. -/
def decimal_value (digits : List Char) : Nat :=
  digits.foldl (fun acc c => 10 * acc + (c.toNat - 48)) 0

/-! ## What the loop computes

The three functions below follow the loop of `export_revision` over the
in-scope records, with the arithmetic of the source (the mark modulo `2^32`).
`export_loop_ok` proves that the loop computes them. -/

/-- The change lines the loop appends, the mark being `m` at its start. -/
def lines_from : Nat → List (List Char × svn_fs_path_change_t) → List (List Char)
  | _, [] => []
  | m, e :: rest =>
    if is_delete e then D_line (relativize e.1) :: lines_from m rest
    else M_line m (relativize e.1) :: lines_from ((m + 1) % 2 ^ 32) rest

/-- The bytes the loop appends to standard output, the mark being `m` at its
start. -/
def blobs_from : Nat → List (List Char × svn_fs_path_change_t) → List Char
  | _, [] => []
  | m, e :: rest =>
    if is_delete e then blobs_from m rest
    else blob_text m ++ blobs_from ((m + 1) % 2 ^ 32) rest

/-- The value of `mark` after the loop, the mark being `m` at its start. -/
def mark_from : Nat → List (List Char × svn_fs_path_change_t) → Nat
  | m, [] => m
  | m, e :: rest =>
    if is_delete e then mark_from m rest else mark_from ((m + 1) % 2 ^ 32) rest

/-! ## Example repositories -/

/-- A revision that deletes `/trunk/x.txt` and adds `/trunk/y.txt`. -/
def delete_add_root : svn_fs_root_t :=
  { paths_changed := .ok [("/trunk/x.txt".toList, ⟨svn_fs_path_change_delete⟩),
      ("/trunk/y.txt".toList, ⟨svn_fs_path_change_add⟩)]
    is_dir := fun _ => .ok false
    file_contents := fun _ => .ok "hi".toList }

/-- A repository whose revisions all are `delete_add_root`. -/
def delete_add_fs : svn_fs_t :=
  { youngest_rev := .ok 1
    revision_root := fun _ => .ok delete_add_root
    revision_proplist := fun _ => .ok () }

/-- Revision 1 of the scenario: creates `/trunk/a.txt` with the content `hi`. -/
def scenario_root1 : svn_fs_root_t :=
  { paths_changed := .ok [("/trunk/a.txt".toList, ⟨svn_fs_path_change_add⟩)]
    is_dir := fun _ => .ok false
    file_contents := fun _ => .ok "hi".toList }

/-- Revision 2 of the scenario: creates `/other/b.txt`. -/
def scenario_root2 : svn_fs_root_t :=
  { paths_changed := .ok [("/other/b.txt".toList, ⟨svn_fs_path_change_add⟩)]
    is_dir := fun _ => .ok false
    file_contents := fun _ => .ok "b".toList }

/-- The repository of the scenario: two revisions. -/
def scenario_fs : svn_fs_t :=
  { youngest_rev := .ok 2
    revision_root := fun rev => if rev = 1 then .ok scenario_root1 else .ok scenario_root2
    revision_proplist := fun _ => .ok () }

/-- A library that opens the repository of the scenario. -/
def scenario_lib : libsvn :=
  { svn_repos_open := fun _ => .ok ⟨scenario_fs⟩
    svn_fs_initialize := .ok () }

/-- A revision that deletes the file `/trunk/a%%b.txt`. -/
def percent_root : svn_fs_root_t :=
  { paths_changed := .ok [("/trunk/a%%b.txt".toList, ⟨svn_fs_path_change_delete⟩)]
    is_dir := fun _ => .ok false
    file_contents := fun _ => .ok [] }

/-- A repository whose revisions all are `percent_root`. -/
def percent_fs : svn_fs_t :=
  { youngest_rev := .ok 1
    revision_root := fun _ => .ok percent_root
    revision_proplist := fun _ => .ok () }

/-- A repository whose revision 1 cannot be read, and whose revision 2
creates `/trunk/a.txt`. -/
def failing_fs : svn_fs_t :=
  { youngest_rev := .ok 2
    revision_root := fun rev =>
      if rev = 1 then .error ⟨"svn: Can't read revision\n".toList⟩ else .ok scenario_root1
    revision_proplist := fun _ => .ok () }

/-- A library that opens `failing_fs`. -/
def failing_lib : libsvn :=
  { svn_repos_open := fun _ => .ok ⟨failing_fs⟩
    svn_fs_initialize := .ok () }

/-- A revision that adds `/trunk/a.txt` and `/trunk/b.txt`; the directory
status of `/trunk/b.txt` cannot be read. -/
def dir_failure_root : svn_fs_root_t :=
  { paths_changed := .ok [("/trunk/a.txt".toList, ⟨svn_fs_path_change_add⟩),
      ("/trunk/b.txt".toList, ⟨svn_fs_path_change_add⟩)]
    is_dir := fun p =>
      if p = "/trunk/b.txt".toList then .error ⟨"svn: Can't read node\n".toList⟩ else .ok false
    file_contents := fun _ => .ok [] }

/-- A repository of two revisions: revision 1 is `dir_failure_root`,
revision 2 creates `/trunk/a.txt`. -/
def dir_failure_fs : svn_fs_t :=
  { youngest_rev := .ok 2
    revision_root := fun rev => if rev = 1 then .ok dir_failure_root else .ok scenario_root1
    revision_proplist := fun _ => .ok () }

/-- A revision that modifies `/trunk/a.txt`. -/
def modify_root : svn_fs_root_t :=
  { paths_changed := .ok [("/trunk/a.txt".toList, ⟨svn_fs_path_change_modify⟩)]
    is_dir := fun _ => .ok false
    file_contents := fun _ => .ok "ho".toList }

/-- A repository of two revisions: revision 1 creates `/trunk/a.txt`,
revision 2 modifies it. -/
def two_blob_fs : svn_fs_t :=
  { youngest_rev := .ok 2
    revision_root := fun rev => if rev = 1 then .ok scenario_root1 else .ok modify_root
    revision_proplist := fun _ => .ok () }

/-- A library that opens `two_blob_fs`. -/
def two_blob_lib : libsvn :=
  { svn_repos_open := fun _ => .ok ⟨two_blob_fs⟩
    svn_fs_initialize := .ok () }

/-! ## Lemmas -/

/-! ### The scope test -/

theorem char_toNat_inj {a b : Char} (h : a.toNat = b.toNat) : a = b := by
  cases a with | mk va ha =>
  cases b with | mk vb hb =>
  simp only [Char.toNat] at h
  congr
  exact UInt32.ext h

theorem strncmp_eq_zero_iff (a b : List Char) (ha : ∀ c ∈ a, c.toNat ≠ 0) :
    strncmp a b a.length = 0 ↔ a <+: b := by
  induction a generalizing b with
  | nil => simp [strncmp]
  | cons x xs ih =>
    have hx : x.toNat ≠ 0 := ha x (List.mem_cons_self _ _)
    have hxs : ∀ c ∈ xs, c.toNat ≠ 0 := fun c hc => ha c (List.mem_cons_of_mem _ hc)
    cases b with
    | nil =>
      simp only [List.length_cons, strncmp]
      constructor
      · intro h; exact absurd (Int.natCast_eq_zero.mp h) hx
      · intro h; simp at h
    | cons y ys =>
      simp only [List.length_cons, strncmp]
      by_cases h : x = y
      · subst h
        simp only [if_true, ih ys hxs]
        exact (List.prefix_cons_inj x).symm
      · simp only [h, if_false]
        constructor
        · intro h0
          exact absurd (char_toNat_inj (by omega)) h
        · intro hp
          exact absurd (List.cons_prefix_cons.mp hp).1 h

theorem trunk_nonzero : ∀ c ∈ TRUNK, c.toNat ≠ 0 := by decide

theorem skip_test_eq_false_iff (is_dir : Bool) (path : List Char) :
    skip_test is_dir path = false ↔ is_dir = false ∧ TRUNK <+: path := by
  unfold skip_test strlen
  rw [Bool.or_eq_false_iff, bne_eq_false_iff_eq, strncmp_eq_zero_iff TRUNK path trunk_nonzero]

theorem trunk_append_drop {path : List Char} (h : TRUNK <+: path) :
    TRUNK ++ path.drop (strlen TRUNK) = path :=
  List.prefix_iff_eq_append.mp h

theorem skip_test_eq_not_in_scope (dir : List Char → Bool) (e : List Char × svn_fs_path_change_t) :
    skip_test (dir e.1) e.1 = !in_scope dir e := by
  cases h : in_scope dir e
  · cases hs : skip_test (dir e.1) e.1
    · rw [skip_test_eq_false_iff] at hs
      simp [in_scope, hs.1, List.isPrefixOf_iff_prefix.mpr hs.2] at h
    · rfl
  · simp only [in_scope, Bool.and_eq_true, Bool.not_eq_true', List.isPrefixOf_iff_prefix] at h
    simpa using (skip_test_eq_false_iff _ _).mpr h

/-! ### The loop of `export_revision` -/

theorem loop_body_skip {d : Bool} {path : List Char} (change : svn_fs_path_change_t)
    (st : LoopState) (h : skip_test d path = true) : loop_body d path change st = st := by
  simp [loop_body, h]

theorem loop_body_delete {d : Bool} {path : List Char} {change : svn_fs_path_change_t}
    (st : LoopState) (h : skip_test d path = false)
    (hk : change.change_kind = svn_fs_path_change_delete) :
    loop_body d path change st =
      { st with file_changes := st.file_changes ++ [D_line (relativize path)] } := by
  simp [loop_body, h, hk, D_line, relativize]

theorem loop_body_blob {d : Bool} {path : List Char} {change : svn_fs_path_change_t}
    (st : LoopState) (h : skip_test d path = false)
    (hk : change.change_kind ≠ svn_fs_path_change_delete) :
    loop_body d path change st =
      { file_changes := st.file_changes ++ [M_line st.mark (relativize path)]
        io := st.io.out (blob_text st.mark)
        mark := (st.mark + 1) % 2 ^ 32 } := by
  simp [loop_body, h, hk, M_line, relativize, blob_text]

theorem export_loop_ok (root_obj : svn_fs_root_t) (dir : List Char → Bool)
    (changes : List (List Char × svn_fs_path_change_t))
    (hdir : ∀ e ∈ changes, root_obj.is_dir e.1 = .ok (dir e.1)) (st : LoopState) :
    export_loop root_obj changes st =
      ({ file_changes := st.file_changes ++ lines_from st.mark (changes.filter (in_scope dir))
         mark := mark_from st.mark (changes.filter (in_scope dir))
         io := st.io.out (blobs_from st.mark (changes.filter (in_scope dir))) }, none) := by
  induction changes generalizing st with
  | nil => simp [export_loop, lines_from, mark_from, blobs_from, Streams.out]
  | cons e rest ih =>
    obtain ⟨path, change⟩ := e
    have hhead := hdir (path, change) (List.mem_cons_self _ _)
    have hrest : ∀ e ∈ rest, root_obj.is_dir e.1 = .ok (dir e.1) :=
      fun e he => hdir e (List.mem_cons_of_mem _ he)
    simp only at hhead
    simp only [export_loop, hhead]
    rw [ih hrest]
    have hs := skip_test_eq_not_in_scope dir (path, change)
    simp only at hs
    cases hin : in_scope dir (path, change)
    · rw [hin] at hs
      rw [loop_body_skip change st (by simpa using hs)]
      simp [List.filter_cons, hin]
    · rw [hin] at hs
      have hs' : skip_test (dir path) path = false := by simpa using hs
      by_cases hk : change.change_kind = svn_fs_path_change_delete
      · rw [loop_body_delete st hs' hk]
        simp [List.filter_cons, hin, lines_from, blobs_from, mark_from, is_delete, hk]
      · rw [loop_body_blob st hs' hk]
        simp [List.filter_cons, hin, lines_from, blobs_from, mark_from, is_delete, hk,
          Streams.out]

/-! ### Marks below `2^32` -/

theorem blobs_from_no_blob (m : Nat) (l : List (List Char × svn_fs_path_change_t))
    (h : (l.filter (fun e => !is_delete e)).length = 0) : blobs_from m l = [] := by
  induction l with
  | nil => rfl
  | cons e rest ih =>
    by_cases hd : is_delete e = true
    · simp only [List.filter_cons, hd, Bool.not_true, Bool.false_eq_true, if_false] at h
      simp only [blobs_from, hd, if_true]
      exact ih h
    · have hd' : is_delete e = false := by simpa using hd
      simp only [List.filter_cons, hd', Bool.not_false, if_true, List.length_cons] at h
      omega

theorem lines_from_no_blob (m m' : Nat) (l : List (List Char × svn_fs_path_change_t))
    (h : (l.filter (fun e => !is_delete e)).length = 0) : lines_from m l = lines_from m' l := by
  induction l with
  | nil => rfl
  | cons e rest ih =>
    by_cases hd : is_delete e = true
    · simp only [List.filter_cons, hd, Bool.not_true, Bool.false_eq_true, if_false] at h
      simp only [lines_from, hd, if_true]
      rw [ih h]
    · have hd' : is_delete e = false := by simpa using hd
      simp only [List.filter_cons, hd', Bool.not_false, if_true, List.length_cons] at h
      omega

theorem change_lines_no_blob (m m' : Nat) (l : List (List Char × svn_fs_path_change_t))
    (h : (l.filter (fun e => !is_delete e)).length = 0) :
    change_lines m l = change_lines m' l := by
  induction l with
  | nil => rfl
  | cons e rest ih =>
    by_cases hd : is_delete e = true
    · simp only [List.filter_cons, hd, Bool.not_true, Bool.false_eq_true, if_false] at h
      simp only [change_lines, hd, if_true]
      rw [ih h]
    · have hd' : is_delete e = false := by simpa using hd
      simp only [List.filter_cons, hd', Bool.not_false, if_true, List.length_cons] at h
      omega

theorem change_lines_eq_lines_from_zero (m : Nat) (l : List (List Char × svn_fs_path_change_t))
    (h : (l.filter (fun e => !is_delete e)).length = 0) :
    lines_from m l = change_lines m l := by
  induction l with
  | nil => rfl
  | cons e rest ih =>
    by_cases hd : is_delete e = true
    · simp only [List.filter_cons, hd, Bool.not_true, Bool.false_eq_true, if_false] at h
      simp only [lines_from, change_lines, hd, if_true]
      rw [ih h]
    · have hd' : is_delete e = false := by simpa using hd
      simp only [List.filter_cons, hd', Bool.not_false, if_true, List.length_cons] at h
      omega

theorem blobs_from_eq (m : Nat) (l : List (List Char × svn_fs_path_change_t))
    (h : m + (l.filter (fun e => !is_delete e)).length ≤ 2 ^ 32) :
    blobs_from m l =
      (List.map blob_text (List.range' m (l.filter (fun e => !is_delete e)).length)).flatten := by
  induction l generalizing m with
  | nil => rfl
  | cons e rest ih =>
    by_cases hd : is_delete e = true
    · simp only [List.filter_cons, hd, Bool.not_true, Bool.false_eq_true, if_false] at h ⊢
      simp only [blobs_from, hd, if_true]
      exact ih m h
    · have hd' : is_delete e = false := by simpa using hd
      simp only [List.filter_cons, hd', Bool.not_false, if_true, List.length_cons] at h ⊢
      simp only [blobs_from, hd', Bool.false_eq_true, if_false, List.range'_succ, List.map_cons,
        List.flatten_cons]
      congr 1
      by_cases hz : (rest.filter (fun e => !is_delete e)).length = 0
      · rw [blobs_from_no_blob _ _ hz, hz]; rfl
      · rw [Nat.mod_eq_of_lt (by omega)]
        exact ih (m + 1) (by omega)

theorem lines_from_eq (m : Nat) (l : List (List Char × svn_fs_path_change_t))
    (h : m + (l.filter (fun e => !is_delete e)).length ≤ 2 ^ 32) :
    lines_from m l = change_lines m l := by
  induction l generalizing m with
  | nil => rfl
  | cons e rest ih =>
    by_cases hd : is_delete e = true
    · simp only [List.filter_cons, hd, Bool.not_true, Bool.false_eq_true, if_false] at h
      simp only [lines_from, change_lines, hd, if_true]
      rw [ih m h]
    · have hd' : is_delete e = false := by simpa using hd
      simp only [List.filter_cons, hd', Bool.not_false, if_true, List.length_cons] at h
      simp only [lines_from, change_lines, hd', Bool.false_eq_true, if_false]
      congr 1
      by_cases hz : (rest.filter (fun e => !is_delete e)).length = 0
      · rw [change_lines_eq_lines_from_zero _ _ hz]
        exact change_lines_no_blob _ _ _ hz
      · rw [Nat.mod_eq_of_lt (by omega)]
        exact ih (m + 1) (by omega)

theorem is_M_line_D (rel : List Char) : is_M_line (D_line rel) = false := by
  simp [is_M_line, D_line, List.isPrefixOf]

theorem is_M_line_M (N : Nat) (rel : List Char) : is_M_line (M_line N rel) = true := by
  simp [is_M_line, M_line, List.isPrefixOf]

theorem change_lines_M (m : Nat) (l : List (List Char × svn_fs_path_change_t)) :
    (change_lines m l).filter is_M_line =
      List.zipWith (fun j e => M_line j (relativize e.1))
        (List.range' m (l.filter (fun e => !is_delete e)).length)
        (l.filter (fun e => !is_delete e)) := by
  induction l generalizing m with
  | nil => rfl
  | cons e rest ih =>
    by_cases hd : is_delete e = true
    · simp only [change_lines, hd, if_true, List.filter_cons, is_M_line_D, Bool.false_eq_true,
        if_false, Bool.not_true]
      exact ih m
    · have hd' : is_delete e = false := by simpa using hd
      simp only [change_lines, hd', Bool.false_eq_true, if_false, List.filter_cons, is_M_line_M,
        if_true, Bool.not_false, List.length_cons, List.range'_succ, List.zipWith_cons_cons]
      rw [ih (m + 1)]

/-! ### `export_revision` and `crawl_revisions` as compositions -/

theorem export_revision_ok {fs : svn_fs_t} {rev : Nat} {root_obj : svn_fs_root_t}
    {changes : List (List Char × svn_fs_path_change_t)} {dir : List Char → Bool}
    (h : no_access_failure fs rev root_obj changes dir) (io : Streams) :
    export_revision rev fs io =
      export_finish
        { file_changes := lines_from 1 (changes.filter (in_scope dir))
          mark := mark_from 1 (changes.filter (in_scope dir))
          io := (io.err (banner rev)).out (blobs_from 1 (changes.filter (in_scope dir))) } := by
  obtain ⟨h1, h2, h3, h4⟩ := h
  simp only [export_revision, h1, h2, h3]
  rw [export_loop_ok root_obj dir changes h4]
  simp [banner]

theorem export_loop_append (root_obj : svn_fs_root_t)
    (pre post : List (List Char × svn_fs_path_change_t)) (st st1 : LoopState)
    (h : export_loop root_obj pre st = (st1, none)) :
    export_loop root_obj (pre ++ post) st = export_loop root_obj post st1 := by
  induction pre generalizing st with
  | nil =>
    simp only [export_loop, Prod.mk.injEq, and_true] at h
    rw [List.nil_append, h]
  | cons e rest ih =>
    obtain ⟨path, change⟩ := e
    simp only [List.cons_append, export_loop] at h ⊢
    cases hd : root_obj.is_dir path with
    | error err => rw [hd] at h; simp at h
    | ok d =>
      rw [hd] at h
      simp only at h ⊢
      exact ih _ h

theorem crawl_loop_eq (fs : svn_fs_t) (max_rev : Nat) (n rev : Nat) (io : Streams)
    (hn : n = max_rev + 1 - rev) :
    crawl_loop fs max_rev rev io =
      List.foldlM (fun s r => (export_revision r fs s).map Prod.fst) io (List.range' rev n) := by
  induction n generalizing rev io with
  | zero =>
    rw [crawl_loop, if_neg (by omega)]
    rfl
  | succ k ih =>
    rw [crawl_loop, if_pos (by omega), List.range'_succ, List.foldlM_cons]
    cases hx : export_revision rev fs io with
    | none => rfl
    | some res =>
      obtain ⟨io1, rc⟩ := res
      simp only [Option.map_some', Option.bind_eq_bind, Option.some_bind]
      exact ih (rev + 1) io1 (by omega)

/-! ### What a call appends does not depend on the streams before it -/

theorem loop_body_shift (io : Streams) (d : Bool) (path : List Char)
    (change : svn_fs_path_change_t) (st : LoopState) :
    loop_body d path change { st with io := io.append st.io } =
      { loop_body d path change st with io := io.append (loop_body d path change st).io } := by
  unfold loop_body
  split
  · rfl
  · split
    · rfl
    · simp [Streams.append, Streams.out]

theorem export_loop_shift (io : Streams) (root_obj : svn_fs_root_t)
    (changes : List (List Char × svn_fs_path_change_t)) (st : LoopState) :
    export_loop root_obj changes { st with io := io.append st.io } =
      ({ (export_loop root_obj changes st).1 with
          io := io.append (export_loop root_obj changes st).1.io },
        (export_loop root_obj changes st).2) := by
  induction changes generalizing st with
  | nil => rfl
  | cons e rest ih =>
    obtain ⟨path, change⟩ := e
    simp only [export_loop]
    cases hd : root_obj.is_dir path with
    | error err => rfl
    | ok d =>
      simp only
      rw [loop_body_shift, ih]

theorem export_finish_shift (io : Streams) (st : LoopState) :
    export_finish { st with io := io.append st.io } =
      (export_finish st).map (fun r => (io.append r.1, r.2)) := by
  unfold export_finish
  split
  · simp [Streams.append, Streams.err]
  · cases fprintf_format_only (apr_array_pstrcat st.file_changes (Char.ofNat 10)) with
    | none => rfl
    | some body => simp [Streams.append, Streams.err, Streams.out]

theorem export_revision_shift (rev : Nat) (fs : svn_fs_t) (io : Streams) :
    export_revision rev fs io =
      (export_revision rev fs ⟨[], []⟩).map (fun r => (io.append r.1, r.2)) := by
  have hio : ∀ t, io.err t = io.append ((⟨[], []⟩ : Streams).err t) := by
    intro t; simp [Streams.append, Streams.err]
  unfold export_revision
  simp only
  cases fs.revision_root rev with
  | error e => simp [SVN_ERR, Streams.append, Streams.err]
  | ok root_obj =>
    simp only
    cases root_obj.paths_changed with
    | error e => simp [SVN_ERR, Streams.append, Streams.err]
    | ok changes =>
      simp only
      cases fs.revision_proplist rev with
      | error e => simp [SVN_ERR, Streams.append, Streams.err]
      | ok u =>
        simp only
        rw [hio]
        have := export_loop_shift io root_obj changes
          { file_changes := [], mark := 1,
            io := (⟨[], []⟩ : Streams).err
              ("Exporting revision ".toList ++ decimal rev ++ "... ".toList) }
        simp only at this
        rw [this]
        rcases hloop : export_loop root_obj changes
          { file_changes := [], mark := 1,
            io := (⟨[], []⟩ : Streams).err
              ("Exporting revision ".toList ++ decimal rev ++ "... ".toList) } with ⟨st, _ | e⟩
        · simp only
          exact export_finish_shift io st
        · simp [SVN_ERR, Streams.append, Streams.err]

theorem foldlM_export_some (fs : svn_fs_t) (outs : Nat → Streams × Int) (l : List Nat)
    (h : ∀ rev ∈ l, export_revision rev fs ⟨[], []⟩ = some (outs rev)) (io : Streams) :
    List.foldlM (fun s r => (export_revision r fs s).map Prod.fst) io l =
      some ⟨io.stdout ++ (l.map (fun rev => (outs rev).1.stdout)).flatten,
        io.stderr ++ (l.map (fun rev => (outs rev).1.stderr)).flatten⟩ := by
  induction l generalizing io with
  | nil => simp
  | cons r rest ih =>
    rw [List.foldlM_cons, export_revision_shift, h r (List.mem_cons_self _ _)]
    simp only [Option.map_some', Option.bind_eq_bind, Option.some_bind]
    rw [ih (fun rev hrev => h rev (List.mem_cons_of_mem _ hrev))]
    simp [Streams.append]

/-! ### Access failures -/

theorem export_loop_fails (root_obj : svn_fs_root_t)
    (changes : List (List Char × svn_fs_path_change_t))
    (h : ∃ entry ∈ changes, ∃ e, root_obj.is_dir entry.1 = .error e) (st : LoopState) :
    ∃ st1 e, export_loop root_obj changes st = (st1, some e) := by
  induction changes generalizing st with
  | nil => obtain ⟨entry, hmem, _⟩ := h; exact absurd hmem (List.not_mem_nil _)
  | cons x rest ih =>
    obtain ⟨path, change⟩ := x
    simp only [export_loop]
    cases hd : root_obj.is_dir path with
    | error err => exact ⟨st, err, rfl⟩
    | ok d =>
      simp only
      apply ih
      obtain ⟨entry, hmem, e, he⟩ := h
      rcases List.mem_cons.mp hmem with rfl | hmem
      · simp only at he
        rw [hd] at he
        cases he
      · exact ⟨entry, hmem, e, he⟩

theorem export_revision_fails (fs : svn_fs_t) (rev : Nat) (io : Streams)
    (h : access_failure fs rev) :
    ∃ io1, export_revision rev fs io = some (io1, EXIT_FAILURE) := by
  unfold export_revision
  simp only
  cases h1 : fs.revision_root rev with
  | error e => exact ⟨_, rfl⟩
  | ok root_obj =>
    simp only
    cases h2 : root_obj.paths_changed with
    | error e => exact ⟨_, rfl⟩
    | ok changes =>
      simp only
      cases h3 : fs.revision_proplist rev with
      | error e => exact ⟨_, rfl⟩
      | ok u =>
        simp only
        rcases h with ⟨e, he⟩ | ⟨r, e, hr, he⟩ | ⟨e, he⟩ | ⟨r, c, entry, e, hr, hc, hmem, he⟩
        · rw [h1] at he; cases he
        · rw [h1] at hr; cases hr; rw [h2] at he; cases he
        · rw [h3] at he; cases he
        · rw [h1] at hr; cases hr; rw [h2] at hc; cases hc
          obtain ⟨st1, err, hloop⟩ := export_loop_fails root_obj changes ⟨entry, hmem, e, he⟩
            { file_changes := [], mark := 1,
              io := io.err ("Exporting revision ".toList ++ decimal rev ++ "... ".toList) }
          rw [hloop]
          exact ⟨_, rfl⟩

theorem export_loop_dir_error (root_obj : svn_fs_root_t) (dir : List Char → Bool)
    (pre post : List (List Char × svn_fs_path_change_t))
    (entry : List Char × svn_fs_path_change_t) (e : svn_error_t)
    (hpre : ∀ x ∈ pre, root_obj.is_dir x.1 = .ok (dir x.1))
    (hentry : root_obj.is_dir entry.1 = .error e) (st : LoopState) :
    export_loop root_obj (pre ++ entry :: post) st =
      ({ file_changes := st.file_changes ++ lines_from st.mark (pre.filter (in_scope dir))
         mark := mark_from st.mark (pre.filter (in_scope dir))
         io := st.io.out (blobs_from st.mark (pre.filter (in_scope dir))) }, some e) := by
  rw [export_loop_append root_obj pre _ st _ (export_loop_ok root_obj dir pre hpre st)]
  obtain ⟨path, change⟩ := entry
  simp only at hentry
  simp only [export_loop, hentry]

theorem crawl_revisions_eq (lib : libsvn) (repos_path : List Char) (io : Streams)
    (repos : svn_repos_t) (Y : Nat)
    (hopen : lib.svn_repos_open repos_path = .ok repos)
    (hinit : lib.svn_fs_initialize = .ok ())
    (hy : repos.fs.youngest_rev = .ok Y) :
    crawl_revisions lib repos_path io =
      (List.foldlM (fun s rev => (export_revision rev repos.fs s).map Prod.fst) io
        (List.range' 1 Y)).map (fun s => (s, (0 : Int))) := by
  unfold crawl_revisions
  simp only [hopen, hinit, hy]
  rw [crawl_loop_eq repos.fs Y Y 1 io (by omega)]
  cases List.foldlM (fun s rev => (export_revision rev repos.fs s).map Prod.fst) io
    (List.range' 1 Y) <;> rfl

/-! ### Decimal digits -/

theorem digitChar_value (d : Nat) (h : d < 10) : (Nat.digitChar d).toNat - 48 = d := by
  interval_cases d <;> rfl

theorem toDigitsCore_append (fuel n : Nat) (ds : List Char) :
    Nat.toDigitsCore 10 fuel n ds = Nat.toDigitsCore 10 fuel n [] ++ ds := by
  induction fuel generalizing n ds with
  | zero => simp [Nat.toDigitsCore]
  | succ f ih =>
    simp only [Nat.toDigitsCore]
    split
    · simp
    · rw [ih (n / 10) (Nat.digitChar (n % 10) :: ds), ih (n / 10) [Nat.digitChar (n % 10)]]
      simp

theorem decimal_value_concat (l : List Char) (c : Char) :
    decimal_value (l ++ [c]) = 10 * decimal_value l + (c.toNat - 48) := by
  simp [decimal_value, List.foldl_append]

theorem decimal_value_toDigitsCore (fuel n : Nat) (h : n < fuel) :
    decimal_value (Nat.toDigitsCore 10 fuel n []) = n := by
  induction fuel generalizing n with
  | zero => omega
  | succ f ih =>
    simp only [Nat.toDigitsCore]
    split
    · rename_i h0
      have : n < 10 := by omega
      simp only [decimal_value, List.foldl_cons, List.foldl_nil, Nat.mul_zero, Nat.zero_add]
      rw [Nat.mod_eq_of_lt this]
      exact digitChar_value n this
    · rename_i h0
      rw [toDigitsCore_append, decimal_value_concat, ih (n / 10) (by omega),
        digitChar_value _ (Nat.mod_lt _ (by decide))]
      omega

theorem decimal_value_decimal (n : Nat) : decimal_value (decimal n) = n :=
  decimal_value_toDigitsCore (n + 1) n (Nat.lt_succ_self n)

theorem decimal_injective {m n : Nat} (h : decimal m = decimal n) : m = n := by
  rw [← decimal_value_decimal m, ← decimal_value_decimal n, h]

theorem toDigitsCore_all (P : Char → Prop) (hP : ∀ d, d < 10 → P (Nat.digitChar d))
    (fuel n : Nat) (ds : List Char) (hds : ∀ c ∈ ds, P c) :
    ∀ c ∈ Nat.toDigitsCore 10 fuel n ds, P c := by
  induction fuel generalizing n ds with
  | zero => simpa [Nat.toDigitsCore] using hds
  | succ f ih =>
    have hcons : ∀ c ∈ Nat.digitChar (n % 10) :: ds, P c := by
      intro c hc
      rcases List.mem_cons.mp hc with rfl | hc
      · exact hP _ (Nat.mod_lt _ (by decide))
      · exact hds c hc
    simp only [Nat.toDigitsCore]
    split
    · exact hcons
    · exact ih _ _ hcons

theorem decimal_all (P : Char → Prop) (hP : ∀ d, d < 10 → P (Nat.digitChar d)) (n : Nat) :
    ∀ c ∈ decimal n, P c :=
  toDigitsCore_all P hP (n + 1) n [] (fun _ h => absurd h (List.not_mem_nil _))

theorem decimal_no_space (n : Nat) : ' ' ∉ decimal n := by
  intro h
  exact decimal_all (fun c => c ≠ ' ') (by intro d hd; interval_cases d <;> decide) n _ h rfl

theorem append_sep_inj {a b s t : List Char} {x : Char} (ha : x ∉ a) (hb : x ∉ b)
    (h : a ++ x :: s = b ++ x :: t) : a = b := by
  induction a generalizing b with
  | nil =>
    cases b with
    | nil => rfl
    | cons y ys =>
      simp only [List.nil_append, List.cons_append, List.cons.injEq] at h
      exact absurd (List.mem_cons_self _ _) (h.1 ▸ hb)
  | cons y ys ih =>
    cases b with
    | nil =>
      simp only [List.nil_append, List.cons_append, List.cons.injEq] at h
      exact absurd (List.mem_cons_self _ _) (h.1 ▸ ha)
    | cons z zs =>
      simp only [List.cons_append, List.cons.injEq] at h
      rw [h.1, ih (fun hx => ha (List.mem_cons_of_mem _ hx))
        (fun hx => hb (List.mem_cons_of_mem _ hx)) h.2]

theorem M_line_mark_inj {N N' : Nat} {rel rel' : List Char}
    (h : M_line N rel = M_line N' rel') : N = N' := by
  unfold M_line at h
  simp only [List.append_assoc, List.append_cancel_left_eq] at h
  exact decimal_injective (append_sep_inj (decimal_no_space N) (decimal_no_space N') h)

theorem M_line_ne_D_line (N : Nat) (rel rel' : List Char) : M_line N rel ≠ D_line rel' := by
  intro h
  have := congrArg is_M_line h
  rw [is_M_line_M, is_M_line_D] at this
  cases this

/-! ### The blob of a mark stands before the commit -/

theorem export_loop_from_empty (root_obj : svn_fs_root_t)
    (changes : List (List Char × svn_fs_path_change_t)) (fc : List (List Char)) (m : Nat)
    (io0 : Streams) :
    export_loop root_obj changes { file_changes := fc, mark := m, io := io0 } =
      ({ (export_loop root_obj changes { file_changes := fc, mark := m, io := ⟨[], []⟩ }).1 with
          io := io0.append
            (export_loop root_obj changes { file_changes := fc, mark := m, io := ⟨[], []⟩ }).1.io },
        (export_loop root_obj changes { file_changes := fc, mark := m, io := ⟨[], []⟩ }).2) := by
  have h := export_loop_shift io0 root_obj changes { file_changes := fc, mark := m, io := ⟨[], []⟩ }
  have hio : io0.append (⟨[], []⟩ : Streams) = io0 := by simp [Streams.append]
  simp only [hio] at h
  exact h

theorem loop_body_blob_written (d : Bool) (path : List Char) (change : svn_fs_path_change_t)
    (st : LoopState)
    (hinv : ∀ N rel, M_line N rel ∈ st.file_changes →
      ∃ b1 b2, st.io.stdout = b1 ++ blob_text N ++ b2) :
    ∀ N rel, M_line N rel ∈ (loop_body d path change st).file_changes →
      ∃ b1 b2, (loop_body d path change st).io.stdout = b1 ++ blob_text N ++ b2 := by
  intro N rel hmem
  cases hs : skip_test d path
  · by_cases hk : change.change_kind = svn_fs_path_change_delete
    · rw [loop_body_delete st hs hk] at hmem ⊢
      simp only [List.mem_append, List.mem_singleton] at hmem
      rcases hmem with hmem | hmem
      · exact hinv N rel hmem
      · exact absurd hmem (M_line_ne_D_line _ _ _)
    · rw [loop_body_blob st hs hk] at hmem ⊢
      simp only [List.mem_append, List.mem_singleton] at hmem
      rcases hmem with hmem | hmem
      · obtain ⟨b1, b2, hb⟩ := hinv N rel hmem
        refine ⟨b1, b2 ++ blob_text st.mark, ?_⟩
        simp [Streams.out, hb]
      · rw [M_line_mark_inj hmem]
        exact ⟨st.io.stdout, [], by simp [Streams.out]⟩
  · rw [loop_body_skip change st hs] at hmem ⊢
    exact hinv N rel hmem

theorem export_loop_blob_written (root_obj : svn_fs_root_t)
    (changes : List (List Char × svn_fs_path_change_t)) (st : LoopState)
    (hinv : ∀ N rel, M_line N rel ∈ st.file_changes →
      ∃ b1 b2, st.io.stdout = b1 ++ blob_text N ++ b2) :
    ∀ N rel, M_line N rel ∈ (export_loop root_obj changes st).1.file_changes →
      ∃ b1 b2, (export_loop root_obj changes st).1.io.stdout = b1 ++ blob_text N ++ b2 := by
  induction changes generalizing st with
  | nil => exact hinv
  | cons e rest ih =>
    obtain ⟨path, change⟩ := e
    simp only [export_loop]
    cases hd : root_obj.is_dir path with
    | error err => exact hinv
    | ok d => exact ih _ (loop_body_blob_written d path change st hinv)

theorem revision_blob_before_commit (fs : svn_fs_t) (rev : Nat) (root_obj : svn_fs_root_t)
    (changes : List (List Char × svn_fs_path_change_t)) (st : LoopState) (io0 : Streams)
    (hroot : fs.revision_root rev = .ok root_obj)
    (hchanges : root_obj.paths_changed = .ok changes)
    (hprops : fs.revision_proplist rev = .ok ())
    (hloop : export_loop root_obj changes { file_changes := [], mark := 1, io := io0 } =
      (st, none))
    (N : Nat) (rel : List Char) (hline : M_line N rel ∈ st.file_changes)
    (out : Streams × Int) (hout : export_revision rev fs ⟨[], []⟩ = some out) :
    ∃ b1 b2 body, fprintf_format_only (apr_array_pstrcat st.file_changes (Char.ofNat 10)) =
        some body ∧
      out.1.stdout = b1 ++ blob_text N ++ b2 ++ commit_text body := by
  have h0 := export_loop_from_empty root_obj changes [] 1 io0
  rw [hloop] at h0
  have hfc : (export_loop root_obj changes
      { file_changes := [], mark := 1, io := ⟨[], []⟩ }).1.file_changes = st.file_changes := by
    have := congrArg (fun p => p.1.file_changes) h0
    exact this.symm
  have herr : (export_loop root_obj changes
      { file_changes := [], mark := 1, io := ⟨[], []⟩ }).2 = none := by
    have := congrArg (fun p => p.2) h0
    exact this.symm
  have h1 := export_loop_from_empty root_obj changes [] 1
    ((⟨[], []⟩ : Streams).err ("Exporting revision ".toList ++ decimal rev ++ "... ".toList))
  have hinv := export_loop_blob_written root_obj changes
    { file_changes := [], mark := 1, io := ⟨[], []⟩ }
    (fun N rel hmem => absurd hmem (List.not_mem_nil _)) N rel (hfc ▸ hline)
  obtain ⟨b1, b2, hb⟩ := hinv
  unfold export_revision at hout
  simp only [hroot, hchanges, hprops] at hout
  rw [h1] at hout
  simp only [herr, hfc] at hout
  unfold export_finish at hout
  simp only at hout
  have hne : ¬ st.file_changes.length = 0 := by
    intro hz
    rw [List.length_eq_zero] at hz
    rw [hz] at hline
    exact absurd hline (List.not_mem_nil _)
  rw [if_neg hne] at hout
  cases hbody : fprintf_format_only (apr_array_pstrcat st.file_changes (Char.ofNat 10)) with
  | none => rw [hbody] at hout; cases hout
  | some body =>
    rw [hbody] at hout
    simp only [Option.some.injEq] at hout
    refine ⟨b1, b2, body, rfl, ?_⟩
    rw [← hout]
    simp [Streams.out, Streams.err, Streams.append, hb, commit_text]

theorem foldlM_export_defined (fs : svn_fs_t) (l : List Nat) (io s : Streams)
    (h : List.foldlM (fun s r => (export_revision r fs s).map Prod.fst) io l = some s) :
    ∀ rev ∈ l, ∃ out, export_revision rev fs ⟨[], []⟩ = some out := by
  induction l generalizing io with
  | nil => intro rev hrev; exact absurd hrev (List.not_mem_nil _)
  | cons r rest ih =>
    rw [List.foldlM_cons, export_revision_shift] at h
    cases hr : export_revision r fs ⟨[], []⟩ with
    | none => rw [hr] at h; cases h
    | some out =>
      rw [hr] at h
      simp only [Option.map_some', Option.bind_eq_bind, Option.some_bind] at h
      intro rev hrev
      rcases List.mem_cons.mp hrev with rfl | hrev
      · exact ⟨out, hr⟩
      · exact ih _ h rev hrev

theorem crawl_stdout_split (lib : libsvn) (repos_path : List Char) (io : Streams)
    (repos : svn_repos_t) (Y : Nat) (res : Streams × Int)
    (hopen : lib.svn_repos_open repos_path = .ok repos)
    (hinit : lib.svn_fs_initialize = .ok ())
    (hy : repos.fs.youngest_rev = .ok Y)
    (hrun : crawl_revisions lib repos_path io = some res)
    (rev : Nat) (hrev : rev ∈ List.range' 1 Y) :
    ∃ out before after, export_revision rev repos.fs ⟨[], []⟩ = some out ∧
      res.1.stdout = before ++ out.1.stdout ++ after := by
  rw [crawl_revisions_eq lib repos_path io repos Y hopen hinit hy] at hrun
  obtain ⟨s, hf, hs⟩ := Option.map_eq_some'.mp hrun
  have hdef := foldlM_export_defined repos.fs _ io s hf
  have houts : ∀ r ∈ List.range' 1 Y, export_revision r repos.fs ⟨[], []⟩ =
      some ((export_revision r repos.fs ⟨[], []⟩).getD (⟨[], []⟩, 0)) := by
    intro r hr
    obtain ⟨out, ho⟩ := hdef r hr
    rw [ho]; rfl
  rw [foldlM_export_some repos.fs _ _ houts] at hf
  simp only [Option.some.injEq] at hf
  obtain ⟨l1, l2, hl⟩ := List.append_of_mem hrev
  obtain ⟨out, ho⟩ := hdef rev hrev
  refine ⟨out, io.stdout ++ (l1.map (fun r =>
    ((export_revision r repos.fs ⟨[], []⟩).getD (⟨[], []⟩, 0)).1.stdout)).flatten,
    (l2.map (fun r =>
    ((export_revision r repos.fs ⟨[], []⟩).getD (⟨[], []⟩, 0)).1.stdout)).flatten, ho, ?_⟩
  rw [← hs, ← hf]
  simp only [hl, List.map_append, List.map_cons, List.flatten_append, List.flatten_cons, ho,
    Option.getD_some, List.append_assoc]

/-! ### The shape of the output of one revision -/

theorem export_loop_blobs (root_obj : svn_fs_root_t)
    (changes : List (List Char × svn_fs_path_change_t)) (st : LoopState)
    (hb : st.mark + changes.length ≤ 2 ^ 32) :
    ∃ j, (export_loop root_obj changes st).1.io.stdout =
      st.io.stdout ++ (List.map blob_text (List.range' st.mark j)).flatten := by
  induction changes generalizing st with
  | nil => exact ⟨0, by simp [export_loop]⟩
  | cons e rest ih =>
    obtain ⟨path, change⟩ := e
    simp only [export_loop]
    simp only [List.length_cons] at hb
    cases hd : root_obj.is_dir path with
    | error err => exact ⟨0, by simp⟩
    | ok d =>
      simp only
      cases hs : skip_test d path
      · by_cases hk : change.change_kind = svn_fs_path_change_delete
        · rw [loop_body_delete st hs hk]
          exact ih _ (by simp only; omega)
        · rw [loop_body_blob st hs hk]
          cases rest with
          | nil => exact ⟨1, by simp [export_loop, Streams.out]⟩
          | cons e2 rest2 =>
            simp only [List.length_cons] at hb
            have hmod : (st.mark + 1) % 2 ^ 32 = st.mark + 1 := Nat.mod_eq_of_lt (by omega)
            rw [hmod]
            obtain ⟨j, hj⟩ := ih
              { file_changes := st.file_changes ++ [M_line st.mark (relativize path)]
                io := st.io.out (blob_text st.mark)
                mark := st.mark + 1 } (by simp only [List.length_cons]; omega)
            refine ⟨j + 1, ?_⟩
            rw [hj]
            simp [Streams.out, List.range'_succ]
      · rw [loop_body_skip change st hs]
        exact ih _ (by omega)

theorem export_finish_stdout (st : LoopState) (out : Streams × Int)
    (h : export_finish st = some out) :
    ∃ commit, out.1.stdout = st.io.stdout ++ commit ∧
      (commit = [] ∨ ∃ body, commit = commit_text body) := by
  unfold export_finish at h
  split at h
  · simp only [Option.some.injEq] at h
    exact ⟨[], by rw [← h]; simp [Streams.err], Or.inl rfl⟩
  · split at h
    · cases h
    · rename_i body _
      simp only [Option.some.injEq] at h
      exact ⟨commit_text body, by rw [← h]; simp [Streams.err, Streams.out, commit_text],
        Or.inr ⟨body, rfl⟩⟩

theorem blob_count_congr (dir dir' : List Char → Bool)
    (changes : List (List Char × svn_fs_path_change_t))
    (h : ∀ e ∈ changes, dir e.1 = dir' e.1) : blob_count dir changes = blob_count dir' changes := by
  unfold blob_count blob_entries
  have : changes.filter (in_scope dir) = changes.filter (in_scope dir') := by
    apply List.filter_congr
    intro e he
    simp only [in_scope, h e he]
  rw [this]

theorem blob_count_le (dir : List Char → Bool)
    (changes : List (List Char × svn_fs_path_change_t)) :
    blob_count dir changes ≤ changes.length := by
  unfold blob_count blob_entries
  exact le_trans (List.length_filter_le _ _) (List.length_filter_le _ _)

theorem revision_output_shape (fs : svn_fs_t) (rev : Nat)
    (hsmall : ∀ root_obj changes, fs.revision_root rev = .ok root_obj →
      root_obj.paths_changed = .ok changes → changes.length < 2 ^ 32) :
    ∃ (k : Nat) (commit : List Char),
      (∀ out, export_revision rev fs ⟨[], []⟩ = some out →
        out.1.stdout = blob_lines k ++ commit) ∧
      (commit = [] ∨ ∃ body, commit = commit_text body) ∧
      (∀ root_obj changes dir, no_access_failure fs rev root_obj changes dir →
        k = blob_count dir changes) := by
  by_cases hacc : ∃ root_obj changes dir, no_access_failure fs rev root_obj changes dir
  · obtain ⟨root_obj, changes, dir, h⟩ := hacc
    have hk : ∀ root' changes' dir', no_access_failure fs rev root' changes' dir' →
        blob_count dir changes = blob_count dir' changes' := by
      intro root' changes' dir' h'
      have e1 := h.1.symm.trans h'.1
      simp only [Except.ok.injEq] at e1
      subst e1
      have e2 := h.2.1.symm.trans h'.2.1
      simp only [Except.ok.injEq] at e2
      subst e2
      apply blob_count_congr
      intro e he
      have := (h.2.2.2 e he).symm.trans (h'.2.2.2 e he)
      simpa using this
    have hlt := hsmall root_obj changes h.1 h.2.1
    have hle := blob_count_le dir changes
    have hbl : blobs_from 1 (changes.filter (in_scope dir)) =
        blob_lines (blob_count dir changes) :=
      blobs_from_eq 1 _ (by unfold blob_count blob_entries at hle; omega)
    cases hx : export_revision rev fs ⟨[], []⟩ with
    | none => exact ⟨blob_count dir changes, [], (fun out ho => by cases ho), Or.inl rfl, hk⟩
    | some out =>
      rw [export_revision_ok h] at hx
      obtain ⟨commit, hc, hshape⟩ := export_finish_stdout _ out hx
      refine ⟨blob_count dir changes, commit, ?_, hshape, hk⟩
      intro out' ho
      simp only [Option.some.injEq] at ho
      rw [← ho, hc]
      simp [Streams.out, Streams.err, hbl]
  · have hvac : ∀ (k : Nat) root_obj changes dir,
        no_access_failure fs rev root_obj changes dir → k = blob_count dir changes :=
      fun k r c d h => absurd ⟨r, c, d, h⟩ hacc
    cases hx : export_revision rev fs ⟨[], []⟩ with
    | none => exact ⟨0, [], (fun out ho => by cases ho), Or.inl rfl, hvac 0⟩
    | some out =>
      suffices hs : ∃ k commit, out.1.stdout = blob_lines k ++ commit ∧
          (commit = [] ∨ ∃ body, commit = commit_text body) by
        obtain ⟨k, commit, h1, h2⟩ := hs
        refine ⟨k, commit, ?_, h2, hvac k⟩
        intro out' ho
        simp only [Option.some.injEq] at ho
        rw [← ho, h1]
      unfold export_revision at hx
      simp only at hx
      cases h1 : fs.revision_root rev with
      | error e =>
        rw [h1] at hx
        simp only [Option.some.injEq] at hx
        exact ⟨0, [], by rw [← hx]; simp [SVN_ERR, Streams.err, blob_lines], Or.inl rfl⟩
      | ok root_obj =>
        rw [h1] at hx
        simp only at hx
        cases h2 : root_obj.paths_changed with
        | error e =>
          rw [h2] at hx
          simp only [Option.some.injEq] at hx
          exact ⟨0, [], by rw [← hx]; simp [SVN_ERR, Streams.err, blob_lines], Or.inl rfl⟩
        | ok changes =>
          rw [h2] at hx
          simp only at hx
          cases h3 : fs.revision_proplist rev with
          | error e =>
            rw [h3] at hx
            simp only [Option.some.injEq] at hx
            exact ⟨0, [], by rw [← hx]; simp [SVN_ERR, Streams.err, blob_lines], Or.inl rfl⟩
          | ok u =>
            rw [h3] at hx
            simp only at hx
            have hlt := hsmall root_obj changes h1 h2
            obtain ⟨j, hj⟩ := export_loop_blobs root_obj changes
              { file_changes := [], mark := 1,
                io := (⟨[], []⟩ : Streams).err
                  ("Exporting revision ".toList ++ decimal rev ++ "... ".toList) }
              (by simp only; omega)
            rcases hloop : export_loop root_obj changes
              { file_changes := [], mark := 1,
                io := (⟨[], []⟩ : Streams).err
                  ("Exporting revision ".toList ++ decimal rev ++ "... ".toList) }
              with ⟨st, _ | e⟩
            · rw [hloop] at hx hj
              simp only at hx hj
              obtain ⟨commit, hc, hshape⟩ := export_finish_stdout st out hx
              refine ⟨j, commit, ?_, hshape⟩
              rw [hc, hj]
              simp [Streams.err, blob_lines]
            · rw [hloop] at hx hj
              simp only [Option.some.injEq] at hx hj
              refine ⟨j, [], ?_, Or.inl rfl⟩
              rw [← hx]
              simp only [SVN_ERR, Streams.err, hj]
              simp [blob_lines]

/-! ### Change lines without `%` -/

/-- The `D` lines among the change lines of a list of records are, in order,
the lines `D <relative-path>` of its records of kind Deleted, one each. -/
theorem change_lines_D (m : Nat) (l : List (List Char × svn_fs_path_change_t)) :
    (change_lines m l).filter (fun line => !is_M_line line) =
      (l.filter is_delete).map (fun e => D_line (relativize e.1)) := by
  induction l generalizing m with
  | nil => rfl
  | cons e rest ih =>
    by_cases hd : is_delete e = true
    · simp only [change_lines, hd, if_true, List.filter_cons, is_M_line_D, Bool.not_false,
        List.map_cons]
      rw [ih m]
    · have hd' : is_delete e = false := by simpa using hd
      simp only [change_lines, hd', Bool.false_eq_true, if_false, List.filter_cons, is_M_line_M,
        Bool.not_true]
      exact ih (m + 1)

/-- For a record in scope, `/trunk/` followed by the relative path is the path. -/
theorem trunk_append_relativize (dir : List Char → Bool)
    (e : List Char × svn_fs_path_change_t) (h : in_scope dir e = true) :
    TRUNK ++ relativize e.1 = e.1 := by
  simp only [in_scope, Bool.and_eq_true, List.isPrefixOf_iff_prefix] at h
  exact trunk_append_drop h.2

theorem fprintf_format_only_plain (s : List Char) (h : Char.ofNat 37 ∉ s) :
    fprintf_format_only s = some s := by
  induction s with
  | nil => rfl
  | cons c rest ih =>
    have hc : c ≠ Char.ofNat 37 := fun hc => h (hc ▸ List.mem_cons_self _ _)
    have hrest : Char.ofNat 37 ∉ rest := fun hr => h (List.mem_cons_of_mem _ hr)
    rw [fprintf_format_only.eq_def]
    simp only [hc, if_false, ih hrest, Option.map_some']

theorem pstrcat_newline_terminated (lines : List (List Char)) (hne : lines ≠ []) :
    apr_array_pstrcat lines (Char.ofNat 10) ++ "\n\n".toList =
      (lines.map (fun l => l ++ "\n".toList)).flatten ++ "\n".toList := by
  induction lines with
  | nil => exact absurd rfl hne
  | cons s rest ih =>
    cases rest with
    | nil => simp [apr_array_pstrcat]
    | cons t rest2 =>
      have := ih (List.cons_ne_nil _ _)
      simp only [apr_array_pstrcat, List.map_cons, List.flatten_cons, List.append_assoc,
        List.cons_append] at this ⊢
      rw [this]
      rfl

theorem pstrcat_no_percent (lines : List (List Char))
    (h : ∀ l ∈ lines, Char.ofNat 37 ∉ l) :
    Char.ofNat 37 ∉ apr_array_pstrcat lines (Char.ofNat 10) := by
  induction lines with
  | nil => simp [apr_array_pstrcat]
  | cons s rest ih =>
    cases rest with
    | nil => simpa [apr_array_pstrcat] using h s (List.mem_cons_self _ _)
    | cons t rest2 =>
      have hrest := ih (fun l hl => h l (List.mem_cons_of_mem _ hl))
      simp only [apr_array_pstrcat, List.mem_append, List.mem_cons, not_or]
      refine ⟨h s (List.mem_cons_self _ _), by decide, ?_⟩
      simpa [apr_array_pstrcat] using hrest

theorem decimal_no_percent (n : Nat) : Char.ofNat 37 ∉ decimal n := by
  intro h
  exact decimal_all (fun c => c ≠ Char.ofNat 37)
    (by intro d hd; interval_cases d <;> decide) n _ h rfl

theorem change_lines_no_percent (m : Nat) (l : List (List Char × svn_fs_path_change_t))
    (h : ∀ e ∈ l, Char.ofNat 37 ∉ e.1) :
    ∀ line ∈ change_lines m l, Char.ofNat 37 ∉ line := by
  induction l generalizing m with
  | nil => intro line hl; exact absurd hl (List.not_mem_nil _)
  | cons e rest ih =>
    have he : Char.ofNat 37 ∉ relativize e.1 := fun hm =>
      h e (List.mem_cons_self _ _) (List.mem_of_mem_drop hm)
    have hrest : ∀ e ∈ rest, Char.ofNat 37 ∉ e.1 := fun x hx => h x (List.mem_cons_of_mem _ hx)
    intro line hl
    simp only [change_lines] at hl
    split at hl
    · rcases List.mem_cons.mp hl with rfl | hl
      · simp only [D_line, List.mem_append, not_or]
        exact ⟨by decide, he⟩
      · exact ih m hrest line hl
    · rcases List.mem_cons.mp hl with rfl | hl
      · simp only [M_line, List.mem_append, not_or]
        exact ⟨⟨⟨by decide, decimal_no_percent m⟩, by decide⟩, he⟩
      · exact ih (m + 1) hrest line hl

theorem change_lines_ne_nil (m : Nat) (l : List (List Char × svn_fs_path_change_t))
    (h : l ≠ []) : change_lines m l ≠ [] := by
  cases l with
  | nil => exact absurd rfl h
  | cons e rest =>
    simp only [change_lines]
    split <;> exact List.cons_ne_nil _ _

/-- The commit directive of a revision none of whose in-scope paths holds a
`%`: after the blob directives, the line `commit refs/heads/master`, every
change line in the order of the change-set, each followed by one newline,
then a blank line. -/
theorem commit_directive_without_percent (fs : svn_fs_t) (rev : Nat) (root_obj : svn_fs_root_t)
    (changes : List (List Char × svn_fs_path_change_t)) (dir : List Char → Bool) (io : Streams)
    (h : no_access_failure fs rev root_obj changes dir)
    (hk : blob_count dir changes < 2 ^ 32)
    (hne : changes.filter (in_scope dir) ≠ [])
    (hplain : ∀ e ∈ changes.filter (in_scope dir), Char.ofNat 37 ∉ e.1) :
    export_revision rev fs io =
      some (⟨io.stdout ++ blob_lines (blob_count dir changes) ++
          ("commit refs/heads/master\n".toList ++
            ((change_lines 1 (changes.filter (in_scope dir))).map
              (fun l => l ++ "\n".toList)).flatten ++ "\n".toList),
        io.stderr ++ banner rev ++ "done!\n".toList⟩, 0) := by
  have hb : 1 + ((changes.filter (in_scope dir)).filter (fun e => !is_delete e)).length
      ≤ 2 ^ 32 := by
    unfold blob_count blob_entries at hk
    omega
  rw [export_revision_ok h, lines_from_eq 1 _ hb, blobs_from_eq 1 _ hb]
  unfold export_finish
  have hlen : ¬ (change_lines 1 (changes.filter (in_scope dir))).length = 0 := by
    rw [List.length_eq_zero]
    exact change_lines_ne_nil 1 _ hne
  simp only [if_neg hlen]
  rw [fprintf_format_only_plain _
    (pstrcat_no_percent _ (change_lines_no_percent 1 _ hplain))]
  simp only [Streams.out, Streams.err, Option.some.injEq, Prod.mk.injEq, and_true,
    Streams.mk.injEq, List.append_assoc]
  rw [pstrcat_newline_terminated _ (change_lines_ne_nil 1 _ hne)]
  simp [blob_lines, blob_count, blob_entries]

theorem commit_directive_without_percent_example :
    export_revision 1 delete_add_fs ⟨[], []⟩ =
      some (⟨"blob\nmark :1\ncommit refs/heads/master\nD x.txt\nM 644 :1 y.txt\n\n".toList,
        "Exporting revision 1... done!\n".toList⟩, 0) := by
  rfl

theorem export_finish_defined (st : LoopState)
    (h : ∀ l ∈ st.file_changes, Char.ofNat 37 ∉ l) : ∃ out, export_finish st = some out := by
  unfold export_finish
  split
  · exact ⟨_, rfl⟩
  · rw [fprintf_format_only_plain _ (pstrcat_no_percent _ h)]
    exact ⟨_, rfl⟩

theorem loop_body_no_percent (d : Bool) (path : List Char) (change : svn_fs_path_change_t)
    (st : LoopState) (hpath : Char.ofNat 37 ∉ path)
    (h : ∀ l ∈ st.file_changes, Char.ofNat 37 ∉ l) :
    ∀ l ∈ (loop_body d path change st).file_changes, Char.ofNat 37 ∉ l := by
  have hrel : Char.ofNat 37 ∉ relativize path := fun hm => hpath (List.mem_of_mem_drop hm)
  intro l hl
  cases hs : skip_test d path
  · by_cases hk : change.change_kind = svn_fs_path_change_delete
    · rw [loop_body_delete st hs hk] at hl
      simp only [List.mem_append, List.mem_singleton] at hl
      rcases hl with hl | rfl
      · exact h l hl
      · simp only [D_line, List.mem_append, not_or]
        exact ⟨by decide, hrel⟩
    · rw [loop_body_blob st hs hk] at hl
      simp only [List.mem_append, List.mem_singleton] at hl
      rcases hl with hl | rfl
      · exact h l hl
      · simp only [M_line, List.mem_append, not_or]
        exact ⟨⟨⟨by decide, decimal_no_percent _⟩, by decide⟩, hrel⟩
  · rw [loop_body_skip change st hs] at hl
    exact h l hl

theorem export_loop_no_percent (root_obj : svn_fs_root_t)
    (changes : List (List Char × svn_fs_path_change_t)) (st : LoopState)
    (hpaths : ∀ e ∈ changes, Char.ofNat 37 ∉ e.1)
    (h : ∀ l ∈ st.file_changes, Char.ofNat 37 ∉ l) :
    ∀ l ∈ (export_loop root_obj changes st).1.file_changes, Char.ofNat 37 ∉ l := by
  induction changes generalizing st with
  | nil => exact h
  | cons e rest ih =>
    obtain ⟨path, change⟩ := e
    simp only [export_loop]
    cases hd : root_obj.is_dir path with
    | error err => exact h
    | ok d =>
      exact ih _ (fun x hx => hpaths x (List.mem_cons_of_mem _ hx))
        (loop_body_no_percent d path change st (hpaths (path, change) (List.mem_cons_self _ _)) h)

/-- The call `export_revision` has a defined result when no path of the
change-set of the revision holds a `%`. -/
theorem export_revision_defined (fs : svn_fs_t) (rev : Nat) (io : Streams)
    (h : ∀ root_obj changes, fs.revision_root rev = .ok root_obj →
      root_obj.paths_changed = .ok changes → ∀ e ∈ changes, Char.ofNat 37 ∉ e.1) :
    ∃ out, export_revision rev fs io = some out := by
  unfold export_revision
  simp only
  cases h1 : fs.revision_root rev with
  | error e => exact ⟨_, rfl⟩
  | ok root_obj =>
    simp only
    cases h2 : root_obj.paths_changed with
    | error e => exact ⟨_, rfl⟩
    | ok changes =>
      simp only
      cases h3 : fs.revision_proplist rev with
      | error e => exact ⟨_, rfl⟩
      | ok u =>
        simp only
        have hfc := export_loop_no_percent root_obj changes
          { file_changes := [], mark := 1,
            io := io.err ("Exporting revision ".toList ++ decimal rev ++ "... ".toList) }
          (h root_obj changes h1 h2) (fun l hl => absurd hl (List.not_mem_nil _))
        rcases hloop : export_loop root_obj changes
          { file_changes := [], mark := 1,
            io := io.err ("Exporting revision ".toList ++ decimal rev ++ "... ".toList) }
          with ⟨st, _ | e⟩
        · rw [hloop] at hfc
          exact export_finish_defined st hfc
        · exact ⟨_, rfl⟩

theorem foldlM_export_total (fs : svn_fs_t) (l : List Nat)
    (h : ∀ rev ∈ l, ∀ io, ∃ out, export_revision rev fs io = some out) (io : Streams) :
    ∃ s, List.foldlM (fun s r => (export_revision r fs s).map Prod.fst) io l = some s := by
  induction l generalizing io with
  | nil => exact ⟨io, rfl⟩
  | cons r rest ih =>
    obtain ⟨out, ho⟩ := h r (List.mem_cons_self _ _) io
    rw [List.foldlM_cons, ho]
    simp only [Option.map_some', Option.bind_eq_bind, Option.some_bind]
    exact ih (fun rev hrev => h rev (List.mem_cons_of_mem _ hrev)) _

/-- The run `crawl_revisions` has a defined result when no path of any
change-set of the repository holds a `%`. -/
theorem crawl_revisions_defined (lib : libsvn) (repos_path : List Char) (io : Streams)
    (h : ∀ repos rev root_obj changes, lib.svn_repos_open repos_path = .ok repos →
      repos.fs.revision_root rev = .ok root_obj →
      root_obj.paths_changed = .ok changes → ∀ e ∈ changes, Char.ofNat 37 ∉ e.1) :
    ∃ res, crawl_revisions lib repos_path io = some res := by
  cases hopen : lib.svn_repos_open repos_path with
  | error e => exact ⟨SVN_ERR io e, by simp only [crawl_revisions, hopen]⟩
  | ok repos =>
    cases hinit : lib.svn_fs_initialize with
    | error e => exact ⟨SVN_ERR io e, by simp only [crawl_revisions, hopen, hinit]⟩
    | ok u =>
      cases hy : repos.fs.youngest_rev with
      | error e => exact ⟨SVN_ERR io e, by simp only [crawl_revisions, hopen, hinit, hy]⟩
      | ok Y =>
        rw [crawl_revisions_eq lib repos_path io repos Y hopen hinit hy]
        obtain ⟨s, hs⟩ := foldlM_export_total repos.fs (List.range' 1 Y)
          (fun rev _ io1 => export_revision_defined repos.fs rev io1
            (fun root_obj changes h1 h2 => h repos rev root_obj changes hopen h1 h2)) io
        rw [hs]
        exact ⟨_, rfl⟩

/-! ## The claims -/

/-- C1 fails on the code: in the run over a repository whose revision 1
creates `/trunk/a.txt` and whose revision 2 modifies it, two blobs are
emitted and both carry the mark 1; the marks read from standard output are
1, 1, which is not 1, 2, ..., k for any k. -/
theorem marks_reused_across_revisions :
    crawl_revisions two_blob_lib "repo".toList ⟨[], []⟩ =
      some (⟨("blob\nmark :1\ncommit refs/heads/master\nM 644 :1 a.txt\n\n" ++
          "blob\nmark :1\ncommit refs/heads/master\nM 644 :1 a.txt\n\n").toList,
        ("Exporting revision 1... done!\n" ++ "Exporting revision 2... done!\n").toList⟩, 0) ∧
    mark_lines ("blob\nmark :1\ncommit refs/heads/master\nM 644 :1 a.txt\n\n" ++
          "blob\nmark :1\ncommit refs/heads/master\nM 644 :1 a.txt\n\n").toList =
      [decimal 1, decimal 1] ∧
    ¬ ∃ k, mark_lines ("blob\nmark :1\ncommit refs/heads/master\nM 644 :1 a.txt\n\n" ++
          "blob\nmark :1\ncommit refs/heads/master\nM 644 :1 a.txt\n\n").toList =
        (List.range' 1 k).map decimal := by
  have hm : mark_lines ("blob\nmark :1\ncommit refs/heads/master\nM 644 :1 a.txt\n\n" ++
          "blob\nmark :1\ncommit refs/heads/master\nM 644 :1 a.txt\n\n").toList =
      [decimal 1, decimal 1] := by decide
  refine ⟨?_, hm, ?_⟩
  · rw [crawl_revisions_eq two_blob_lib "repo".toList ⟨[], []⟩ ⟨two_blob_fs⟩ 2 rfl rfl rfl]
    rfl
  · rintro ⟨k, hk⟩
    rw [hm] at hk
    have hlen := congrArg List.length hk
    simp only [List.length_cons, List.length_nil, List.length_map, List.length_range'] at hlen
    have h2 : k = 2 := by omega
    subst h2
    revert hk
    decide

/-- C1 as amended: in a run whose change-sets have fewer than `2^32` records,
the standard output is, revision after revision in increasing order, the blob
directives with the marks 1, 2, ..., k of that revision followed by at most
one commit directive: the numbering starts again at 1 in every revision. For a
revision read without access failure, k is the number of its in-scope
non-directory records whose kind is not Deleted. -/
theorem marks_restart_in_every_revision (lib : libsvn) (repos_path : List Char) (io : Streams)
    (repos : svn_repos_t) (Y : Nat) (res : Streams × Int)
    (hopen : lib.svn_repos_open repos_path = .ok repos)
    (hinit : lib.svn_fs_initialize = .ok ())
    (hy : repos.fs.youngest_rev = .ok Y)
    (hsmall : ∀ rev root_obj changes, repos.fs.revision_root rev = .ok root_obj →
      root_obj.paths_changed = .ok changes → changes.length < 2 ^ 32)
    (hrun : crawl_revisions lib repos_path io = some res) :
    ∃ (k : Nat → Nat) (commits : Nat → List Char),
      res.1.stdout = io.stdout ++
        ((List.range' 1 Y).map (fun rev => blob_lines (k rev) ++ commits rev)).flatten ∧
      (∀ rev, commits rev = [] ∨ ∃ body, commits rev = commit_text body) ∧
      (∀ rev root_obj changes dir, no_access_failure repos.fs rev root_obj changes dir →
        k rev = blob_count dir changes) := by
  choose k commits h1 h2 h3 using
    (fun rev => revision_output_shape repos.fs rev (hsmall rev))
  refine ⟨k, commits, ?_, h2, h3⟩
  rw [crawl_revisions_eq lib repos_path io repos Y hopen hinit hy] at hrun
  obtain ⟨s, hf, hs⟩ := Option.map_eq_some'.mp hrun
  have hdef := foldlM_export_defined repos.fs _ io s hf
  have houts : ∀ r ∈ List.range' 1 Y, export_revision r repos.fs ⟨[], []⟩ =
      some ((export_revision r repos.fs ⟨[], []⟩).getD (⟨[], []⟩, 0)) := by
    intro r hr
    obtain ⟨out, ho⟩ := hdef r hr
    rw [ho]; rfl
  rw [foldlM_export_some repos.fs _ _ houts] at hf
  simp only [Option.some.injEq] at hf
  rw [← hs, ← hf]
  simp only
  congr 2
  apply List.map_congr_left
  intro r hr
  exact h1 r _ (houts r hr)

/-- An instance: the repository `two_blob_fs`, where both revisions write the mark 1. -/
theorem marks_restart_in_every_revision_witness :
    (∀ rev root_obj changes, two_blob_fs.revision_root rev = .ok root_obj →
      root_obj.paths_changed = .ok changes → changes.length < 2 ^ 32) ∧
    crawl_revisions two_blob_lib "repo".toList ⟨[], []⟩ =
      some (⟨("blob\nmark :1\ncommit refs/heads/master\nM 644 :1 a.txt\n\n" ++
          "blob\nmark :1\ncommit refs/heads/master\nM 644 :1 a.txt\n\n").toList,
        ("Exporting revision 1... done!\n" ++ "Exporting revision 2... done!\n").toList⟩, 0) ∧
    ∃ (k : Nat → Nat) (commits : Nat → List Char),
      ("blob\nmark :1\ncommit refs/heads/master\nM 644 :1 a.txt\n\n" ++
          "blob\nmark :1\ncommit refs/heads/master\nM 644 :1 a.txt\n\n").toList = [] ++
        ((List.range' 1 2).map (fun rev => blob_lines (k rev) ++ commits rev)).flatten ∧
      (∀ rev, commits rev = [] ∨ ∃ body, commits rev = commit_text body) ∧
      (∀ rev root_obj changes dir, no_access_failure two_blob_fs rev root_obj changes dir →
        k rev = blob_count dir changes) :=
  have hsmall : ∀ rev root_obj changes, two_blob_fs.revision_root rev = .ok root_obj →
      root_obj.paths_changed = .ok changes → changes.length < 2 ^ 32 := by
    intro rev root_obj changes h1 h2
    by_cases hr : rev = 1
    · simp only [two_blob_fs, hr, if_true, Except.ok.injEq] at h1
      rw [← h1] at h2
      simp only [scenario_root1, Except.ok.injEq] at h2
      rw [← h2]; decide
    · simp only [two_blob_fs, hr, if_false, Except.ok.injEq] at h1
      rw [← h1] at h2
      simp only [modify_root, Except.ok.injEq] at h2
      rw [← h2]; decide
  have hrun : crawl_revisions two_blob_lib "repo".toList ⟨[], []⟩ =
      some (⟨("blob\nmark :1\ncommit refs/heads/master\nM 644 :1 a.txt\n\n" ++
          "blob\nmark :1\ncommit refs/heads/master\nM 644 :1 a.txt\n\n").toList,
        ("Exporting revision 1... done!\n" ++ "Exporting revision 2... done!\n").toList⟩, 0) := by
    rw [crawl_revisions_eq two_blob_lib "repo".toList ⟨[], []⟩ ⟨two_blob_fs⟩ 2 rfl rfl rfl]
    rfl
  ⟨hsmall, hrun,
   marks_restart_in_every_revision two_blob_lib "repo".toList ⟨[], []⟩ ⟨two_blob_fs⟩ 2 _
    rfl rfl rfl hsmall hrun⟩

/-- C2 fails on the code: with revision 1 creating `/trunk/a.txt` whose content
is `hi`, `export_revision` writes the lines `blob` and `mark :1` and goes
straight on to the commit directive; standard output holds no `data` line and
no content bytes. -/
theorem blob_without_data :
    scenario_root1.file_contents "/trunk/a.txt".toList = .ok "hi".toList ∧
    export_revision 1 scenario_fs ⟨[], []⟩ =
      some (⟨"blob\nmark :1\ncommit refs/heads/master\nM 644 :1 a.txt\n\n".toList,
        "Exporting revision 1... done!\n".toList⟩, 0) ∧
    ¬ "data 2\nhi\n".toList <:+:
      "blob\nmark :1\ncommit refs/heads/master\nM 644 :1 a.txt\n\n".toList := by
  refine ⟨rfl, rfl, by decide⟩

/-- C3 fails on the code: the joined change lines are the format string of
`fprintf`. For the path `/trunk/a%%b.txt` the commit directive names
`a%b.txt`, not the relative path `a%%b.txt`; and a change line such as
`D 100%.txt`, where `%` begins a conversion that has no argument, has no
defined output at all. -/
theorem commit_path_not_verbatim :
    export_revision 1 percent_fs ⟨[], []⟩ =
      some (⟨"commit refs/heads/master\nD a%b.txt\n\n".toList,
        "Exporting revision 1... done!\n".toList⟩, 0) ∧
    "commit refs/heads/master\nD a%b.txt\n\n".toList ≠
      "commit refs/heads/master\n".toList ++ ("D ".toList ++ "a%%b.txt".toList) ++
        "\n\n".toList ∧
    fprintf_format_only (apr_array_pstrcat ["D 100%.txt".toList] (Char.ofNat 10)) = none := by
  refine ⟨rfl, by decide, rfl⟩

/-- C4: in the standard output of a whole run, for every revision of the
range that reaches its commit directive and every change line `M 644 :N rel`
of its array `file_changes`: the commit directive is written (its body is the
array printed by `fprintf`), the output of that revision is blob directives,
among them the one with `mark :N`, followed by the commit directive, and this
output is a segment of the output of the run; so the blob with mark `N`
stands before the commit directive that lists the line. -/
theorem blob_precedes_commit (lib : libsvn) (repos_path : List Char) (io : Streams)
    (repos : svn_repos_t) (Y : Nat) (res : Streams × Int)
    (hopen : lib.svn_repos_open repos_path = .ok repos)
    (hinit : lib.svn_fs_initialize = .ok ())
    (hy : repos.fs.youngest_rev = .ok Y)
    (hrun : crawl_revisions lib repos_path io = some res)
    (rev : Nat) (hlo : 1 ≤ rev) (hhi : rev ≤ Y)
    (root_obj : svn_fs_root_t) (changes : List (List Char × svn_fs_path_change_t))
    (st : LoopState) (io0 : Streams)
    (hroot : repos.fs.revision_root rev = .ok root_obj)
    (hchanges : root_obj.paths_changed = .ok changes)
    (hprops : repos.fs.revision_proplist rev = .ok ())
    (hloop : export_loop root_obj changes { file_changes := [], mark := 1, io := io0 } =
      (st, none))
    (N : Nat) (rel : List Char) (hline : M_line N rel ∈ st.file_changes) :
    ∃ before b1 b2 body after,
      fprintf_format_only (apr_array_pstrcat st.file_changes (Char.ofNat 10)) = some body ∧
      (export_revision rev repos.fs ⟨[], []⟩).map (fun o => o.1.stdout) =
        some (b1 ++ blob_text N ++ b2 ++ commit_text body) ∧
      res.1.stdout = before ++ (b1 ++ blob_text N ++ b2 ++ commit_text body) ++ after := by
  have hrev : rev ∈ List.range' 1 Y := by
    rw [List.mem_range'_1]; omega
  obtain ⟨out, before, after, hout, hres⟩ :=
    crawl_stdout_split lib repos_path io repos Y res hopen hinit hy hrun rev hrev
  obtain ⟨b1, b2, body, hbody, hb⟩ :=
    revision_blob_before_commit repos.fs rev root_obj changes st io0 hroot hchanges hprops
      hloop N rel hline out hout
  refine ⟨before, b1, b2, body, after, hbody, ?_, ?_⟩
  · rw [hout, Option.map_some', hb]
  · rw [hres, hb]

/-- An instance: the run over the scenario, revision 1 and its line `M 644 :1 a.txt`. -/
theorem blob_precedes_commit_witness :
    crawl_revisions scenario_lib "repo".toList ⟨[], []⟩ =
      some (⟨"blob\nmark :1\ncommit refs/heads/master\nM 644 :1 a.txt\n\n".toList,
        ("Exporting revision 1... done!\n" ++ "Exporting revision 2... skipping.\n").toList⟩, 0) ∧
    export_loop scenario_root1 [("/trunk/a.txt".toList, ⟨svn_fs_path_change_add⟩)]
      { file_changes := [], mark := 1, io := ⟨[], []⟩ } =
      ({ file_changes := ["M 644 :1 a.txt".toList], mark := 2,
         io := ⟨"blob\nmark :1\n".toList, []⟩ }, none) ∧
    M_line 1 "a.txt".toList ∈ ["M 644 :1 a.txt".toList] ∧
    ∃ before b1 b2 body after,
      fprintf_format_only (apr_array_pstrcat ["M 644 :1 a.txt".toList] (Char.ofNat 10)) =
        some body ∧
      (export_revision 1 scenario_fs ⟨[], []⟩).map (fun o => o.1.stdout) =
        some (b1 ++ blob_text 1 ++ b2 ++ commit_text body) ∧
      "blob\nmark :1\ncommit refs/heads/master\nM 644 :1 a.txt\n\n".toList =
        before ++ (b1 ++ blob_text 1 ++ b2 ++ commit_text body) ++ after :=
  ⟨by rw [crawl_revisions_eq scenario_lib "repo".toList ⟨[], []⟩ ⟨scenario_fs⟩ 2 rfl rfl rfl]; rfl,
   rfl, by decide,
   blob_precedes_commit scenario_lib "repo".toList ⟨[], []⟩ ⟨scenario_fs⟩ 2
    (⟨"blob\nmark :1\ncommit refs/heads/master\nM 644 :1 a.txt\n\n".toList,
        ("Exporting revision 1... done!\n" ++ "Exporting revision 2... skipping.\n").toList⟩, 0)
    rfl rfl rfl
    (by rw [crawl_revisions_eq scenario_lib "repo".toList ⟨[], []⟩ ⟨scenario_fs⟩ 2 rfl rfl rfl]; rfl)
    1 (by decide) (by decide) scenario_root1
    [("/trunk/a.txt".toList, ⟨svn_fs_path_change_add⟩)]
    { file_changes := ["M 644 :1 a.txt".toList], mark := 2,
      io := ⟨"blob\nmark :1\n".toList, []⟩ } ⟨[], []⟩ rfl rfl rfl rfl 1 "a.txt".toList
    (by decide)⟩

/-- C5 fails on the code: the record `/trunk/a%%b.txt` is of kind Deleted, is
not a directory and is under `/trunk/`. The loop accumulates for it the change
line `D a%%b.txt`, but the line standard output receives for it is
`D a%b.txt`, because line 110 prints the change lines as a format string:
`/trunk/` followed by the emitted relative path is not the path. -/
theorem deleted_path_altered_in_output :
    percent_root.paths_changed =
      .ok [("/trunk/a%%b.txt".toList, ⟨svn_fs_path_change_delete⟩)] ∧
    percent_root.is_dir "/trunk/a%%b.txt".toList = .ok false ∧
    TRUNK <+: "/trunk/a%%b.txt".toList ∧
    (export_loop percent_root [("/trunk/a%%b.txt".toList, ⟨svn_fs_path_change_delete⟩)]
      { file_changes := [], mark := 1, io := ⟨[], []⟩ }).1.file_changes =
      ["D a%%b.txt".toList] ∧
    (export_revision 1 percent_fs ⟨[], []⟩).map (fun o => stream_lines [] o.1.stdout) =
      some ["commit refs/heads/master".toList, "D a%b.txt".toList, []] ∧
    TRUNK ++ "a%b.txt".toList ≠ "/trunk/a%%b.txt".toList := by
  refine ⟨rfl, rfl, by decide, rfl, rfl, by decide⟩

/-- C6: the test of line 90 lets a record through exactly when it is not a
directory and its path begins with the bytes `/trunk/`; a path shorter than 7
bytes, `/trunk2/x` and `/trunk` are passed over; and when `svn_fs_is_dir`
answers for every record, the loop of `export_revision` leaves as many change
lines as there are records the test lets through. -/
theorem scope_test_keeps (root_obj : svn_fs_root_t) (dir : List Char → Bool)
    (changes : List (List Char × svn_fs_path_change_t)) (io : Streams)
    (hdir : ∀ e ∈ changes, root_obj.is_dir e.1 = .ok (dir e.1)) :
    (∀ (d : Bool) (path : List Char),
      skip_test d path = false ↔ d = false ∧ TRUNK <+: path) ∧
    (∀ (d : Bool) (path : List Char), path.length < 7 → skip_test d path = true) ∧
    skip_test false "/trunk2/x".toList = true ∧
    skip_test false "/trunk".toList = true ∧
    (export_loop root_obj changes
        { file_changes := [], mark := 1, io := io }).1.file_changes.length =
      (changes.filter (fun e => !skip_test (dir e.1) e.1)).length := by
  refine ⟨skip_test_eq_false_iff, ?_, by decide, by decide, ?_⟩
  · intro d path hlen
    cases h : skip_test d path
    · have hp := ((skip_test_eq_false_iff _ _).mp h).2
      have := hp.length_le
      simp [TRUNK] at this
      omega
    · rfl
  · rw [export_loop_ok root_obj dir changes hdir]
    have hf : (fun e : List Char × svn_fs_path_change_t => !skip_test (dir e.1) e.1) =
        in_scope dir := by
      funext e
      rw [skip_test_eq_not_in_scope, Bool.not_not]
    rw [hf]
    simp only [List.nil_append]
    generalize (1 : Nat) = m
    induction changes.filter (in_scope dir) generalizing m with
    | nil => rfl
    | cons e rest ih =>
      simp only [lines_from]
      split <;> simp [ih]

/-- Two instances: the path `/trunk` of 6 bytes is passed over, and a change-set of two records of which one passes the test. -/
theorem scope_test_keeps_witness :
    ("/trunk".toList.length < 7 ∧ skip_test false "/trunk".toList = true) ∧
    ((∀ e ∈ [("/trunk/x.txt".toList, (⟨svn_fs_path_change_delete⟩ : svn_fs_path_change_t)),
        ("/trunk".toList, ⟨svn_fs_path_change_add⟩)],
        delete_add_root.is_dir e.1 = .ok ((fun _ => false) e.1)) ∧
      (export_loop delete_add_root
          [("/trunk/x.txt".toList, ⟨svn_fs_path_change_delete⟩),
            ("/trunk".toList, ⟨svn_fs_path_change_add⟩)]
          { file_changes := [], mark := 1, io := ⟨[], []⟩ }).1.file_changes.length =
        ([("/trunk/x.txt".toList, (⟨svn_fs_path_change_delete⟩ : svn_fs_path_change_t)),
          ("/trunk".toList, ⟨svn_fs_path_change_add⟩)].filter
            (fun e => !skip_test ((fun _ => false) e.1) e.1)).length) :=
  ⟨⟨by decide,
    (scope_test_keeps delete_add_root (fun _ => false) [] ⟨[], []⟩
      (fun _ h => absurd h (List.not_mem_nil _))).2.1 false "/trunk".toList (by decide)⟩,
   ⟨fun _ _ => rfl,
    (scope_test_keeps delete_add_root (fun _ => false)
      [("/trunk/x.txt".toList, ⟨svn_fs_path_change_delete⟩),
        ("/trunk".toList, ⟨svn_fs_path_change_add⟩)]
      ⟨[], []⟩ (fun _ _ => rfl)).2.2.2.2⟩⟩

/-- C8: when the repository opens and its youngest revision is `Y`,
`crawl_revisions` is `export_revision` run on the revision numbers 1, 2, ..., Y
in this order, each once, each from the streams the one before left (none
when `Y = 0`), and it returns 0; when every revision has a defined output,
the streams of the run are the streams before it followed by the outputs of
the revisions in revision order. -/
theorem crawl_exports_each_revision_in_order (lib : libsvn) (repos_path : List Char)
    (io : Streams) (repos : svn_repos_t) (Y : Nat)
    (hopen : lib.svn_repos_open repos_path = .ok repos)
    (hinit : lib.svn_fs_initialize = .ok ())
    (hy : repos.fs.youngest_rev = .ok Y) :
    crawl_revisions lib repos_path io =
      (List.foldlM (fun s rev => (export_revision rev repos.fs s).map Prod.fst) io
        (List.range' 1 Y)).map (fun s => (s, (0 : Int))) ∧
    (∀ outs : Nat → Streams × Int,
      (∀ rev ∈ List.range' 1 Y, export_revision rev repos.fs ⟨[], []⟩ = some (outs rev)) →
      crawl_revisions lib repos_path io =
        some (⟨io.stdout ++ ((List.range' 1 Y).map (fun rev => (outs rev).1.stdout)).flatten,
          io.stderr ++ ((List.range' 1 Y).map (fun rev => (outs rev).1.stderr)).flatten⟩, 0)) := by
  refine ⟨crawl_revisions_eq lib repos_path io repos Y hopen hinit hy, ?_⟩
  intro outs houts
  rw [crawl_revisions_eq lib repos_path io repos Y hopen hinit hy,
    foldlM_export_some repos.fs outs _ houts]
  rfl

/-- An instance: the run over the two revisions of the scenario. -/
theorem crawl_exports_each_revision_in_order_witness :
    scenario_lib.svn_repos_open "repo".toList = .ok ⟨scenario_fs⟩ ∧
    scenario_lib.svn_fs_initialize = .ok () ∧
    scenario_fs.youngest_rev = .ok 2 ∧
    crawl_revisions scenario_lib "repo".toList ⟨[], []⟩ =
      (List.foldlM (fun s rev => (export_revision rev scenario_fs s).map Prod.fst) ⟨[], []⟩
        (List.range' 1 2)).map (fun s => (s, (0 : Int))) ∧
    crawl_revisions scenario_lib "repo".toList ⟨[], []⟩ =
      some (⟨[] ++ ((List.range' 1 2).map (fun rev =>
          ((export_revision rev scenario_fs ⟨[], []⟩).getD (⟨[], []⟩, 0)).1.stdout)).flatten,
        [] ++ ((List.range' 1 2).map (fun rev =>
          ((export_revision rev scenario_fs ⟨[], []⟩).getD (⟨[], []⟩, 0)).1.stderr)).flatten⟩, 0) :=
  ⟨rfl, rfl, rfl,
   (crawl_exports_each_revision_in_order scenario_lib "repo".toList ⟨[], []⟩ ⟨scenario_fs⟩ 2
    rfl rfl rfl).1,
   (crawl_exports_each_revision_in_order scenario_lib "repo".toList ⟨[], []⟩ ⟨scenario_fs⟩ 2
    rfl rfl rfl).2
    (fun rev => (export_revision rev scenario_fs ⟨[], []⟩).getD (⟨[], []⟩, 0))
    (by decide)⟩

/-- C9 fails on the code: revision 1 cannot be read, `export_revision` returns
`EXIT_FAILURE` for it with nothing on standard output, and the run goes on:
revision 2 is exported, its directives are written, and `crawl_revisions`
returns 0. -/
theorem access_failure_fatal_counterexample :
    access_failure failing_fs 1 ∧
    export_revision 1 failing_fs ⟨[], []⟩ =
      some (⟨[], "Exporting revision 1... svn: Can't read revision\n".toList⟩, EXIT_FAILURE) ∧
    crawl_revisions failing_lib "repo".toList ⟨[], []⟩ =
      some (⟨"blob\nmark :1\ncommit refs/heads/master\nM 644 :1 a.txt\n\n".toList,
        ("Exporting revision 1... svn: Can't read revision\n" ++
          "Exporting revision 2... done!\n").toList⟩, 0) := by
  refine ⟨Or.inl ⟨_, rfl⟩, rfl, ?_⟩
  rw [crawl_revisions_eq failing_lib "repo".toList ⟨[], []⟩ ⟨failing_fs⟩ 2 rfl rfl rfl]
  rfl

/-- C9 as amended: an access of `export_revision` fails for a revision `r` of
the range. Whichever access it is (the revision root, the change-set, the
revision properties, the directory status of a path), `export_revision`
appends to standard error the progress text and the report of that error,
leaves on standard output only the blob directives of the records it met
before the failure (marks 1, 2, ..., no commit directive), and returns
`EXIT_FAILURE`. The loop of `crawl_revisions` drops that status: it goes on
from those streams with revision `r + 1`, for which it calls `export_revision`
when `r + 1` is in the range; and a run in which every revision has a defined
output ends with the outputs of all the revisions of the range, in order, on
its streams and returns 0. -/
theorem access_failure_not_fatal (fs : svn_fs_t) (Y r : Nat) (io : Streams)
    (hlo : 1 ≤ r) (hr : r ≤ Y) (hfail : access_failure fs r) :
    (∀ e, fs.revision_root r = .error e →
      export_revision r fs io =
        some (⟨io.stdout, io.stderr ++ banner r ++ e.report⟩, EXIT_FAILURE)) ∧
    (∀ root_obj e, fs.revision_root r = .ok root_obj → root_obj.paths_changed = .error e →
      export_revision r fs io =
        some (⟨io.stdout, io.stderr ++ banner r ++ e.report⟩, EXIT_FAILURE)) ∧
    (∀ root_obj changes e, fs.revision_root r = .ok root_obj →
      root_obj.paths_changed = .ok changes → fs.revision_proplist r = .error e →
      export_revision r fs io =
        some (⟨io.stdout, io.stderr ++ banner r ++ e.report⟩, EXIT_FAILURE)) ∧
    (∀ root_obj pre entry post dir e, fs.revision_root r = .ok root_obj →
      root_obj.paths_changed = .ok (pre ++ entry :: post) →
      fs.revision_proplist r = .ok () →
      (∀ x ∈ pre, root_obj.is_dir x.1 = .ok (dir x.1)) →
      root_obj.is_dir entry.1 = .error e → blob_count dir pre < 2 ^ 32 →
      export_revision r fs io =
        some (⟨io.stdout ++ blob_lines (blob_count dir pre),
          io.stderr ++ banner r ++ e.report⟩, EXIT_FAILURE)) ∧
    (∃ io1, export_revision r fs io = some (io1, EXIT_FAILURE) ∧
      crawl_loop fs Y r io = crawl_loop fs Y (r + 1) io1 ∧
      (r + 1 ≤ Y → crawl_loop fs Y r io =
        match export_revision (r + 1) fs io1 with
        | none => none
        | some (io2, _) => crawl_loop fs Y (r + 2) io2)) ∧
    (∀ (lib : libsvn) (repos_path : List Char) (io0 : Streams) (outs : Nat → Streams × Int),
      lib.svn_repos_open repos_path = .ok ⟨fs⟩ → lib.svn_fs_initialize = .ok () →
      fs.youngest_rev = .ok Y →
      (∀ rev ∈ List.range' 1 Y, export_revision rev fs ⟨[], []⟩ = some (outs rev)) →
      (outs r).2 = EXIT_FAILURE ∧
      crawl_revisions lib repos_path io0 =
        some (⟨io0.stdout ++ ((List.range' 1 Y).map (fun rev => (outs rev).1.stdout)).flatten,
          io0.stderr ++ ((List.range' 1 Y).map (fun rev => (outs rev).1.stderr)).flatten⟩,
          0)) := by
  refine ⟨?_, ?_, ?_, ?_, ?_, ?_⟩
  · intro e h1
    simp [export_revision, h1, SVN_ERR, Streams.err, banner]
  · intro root_obj e h1 h2
    simp [export_revision, h1, h2, SVN_ERR, Streams.err, banner]
  · intro root_obj changes e h1 h2 h3
    simp [export_revision, h1, h2, h3, SVN_ERR, Streams.err, banner]
  · intro root_obj pre entry post dir e h1 h2 h3 hpre hentry hk
    have hb : 1 + ((pre.filter (in_scope dir)).filter (fun x => !is_delete x)).length
        ≤ 2 ^ 32 := by
      unfold blob_count blob_entries at hk
      omega
    simp only [export_revision, h1, h2, h3]
    rw [export_loop_dir_error root_obj dir pre post entry e hpre hentry]
    simp only
    rw [blobs_from_eq 1 _ hb]
    simp [SVN_ERR, Streams.err, Streams.out, banner, blob_lines, blob_count, blob_entries]
  · obtain ⟨io1, h1⟩ := export_revision_fails fs r io hfail
    have hstep : crawl_loop fs Y r io = crawl_loop fs Y (r + 1) io1 := by
      rw [crawl_loop, if_pos hr, h1]
    refine ⟨io1, h1, hstep, ?_⟩
    intro hnext
    rw [hstep, crawl_loop, if_pos hnext]
  · intro lib repos_path io0 outs hopen hinit hy houts
    have hmem : r ∈ List.range' 1 Y := by
      rw [List.mem_range'_1]; omega
    obtain ⟨io1, h1⟩ := export_revision_fails fs r ⟨[], []⟩ hfail
    constructor
    · have := (houts r hmem).symm.trans h1
      simp only [Option.some.injEq] at this
      rw [this]
    · rw [crawl_revisions_eq lib repos_path io0 ⟨fs⟩ Y hopen hinit hy,
        foldlM_export_some fs outs _ houts]
      rfl

/-- Two instances: revision 1 of `failing_fs`, whose revision root cannot be
read, and revision 1 of `dir_failure_fs`, where the directory status of the
second path cannot be read after a blob was written for the first. -/
theorem access_failure_not_fatal_witness :
    (1 ≤ 1 ∧ 1 ≤ 2 ∧ access_failure failing_fs 1 ∧
      failing_fs.revision_root 1 = .error ⟨"svn: Can't read revision\n".toList⟩ ∧
      export_revision 1 failing_fs ⟨[], []⟩ =
        some (⟨[], [] ++ banner 1 ++ "svn: Can't read revision\n".toList⟩, EXIT_FAILURE) ∧
      ∃ io1, export_revision 1 failing_fs ⟨[], []⟩ = some (io1, EXIT_FAILURE) ∧
        crawl_loop failing_fs 2 1 ⟨[], []⟩ = crawl_loop failing_fs 2 (1 + 1) io1 ∧
        (1 + 1 ≤ 2 → crawl_loop failing_fs 2 1 ⟨[], []⟩ =
          match export_revision (1 + 1) failing_fs io1 with
          | none => none
          | some (io2, _) => crawl_loop failing_fs 2 (1 + 2) io2)) ∧
    (access_failure dir_failure_fs 1 ∧ blob_count (fun _ => false)
        [("/trunk/a.txt".toList, (⟨svn_fs_path_change_add⟩ : svn_fs_path_change_t))] < 2 ^ 32 ∧
      export_revision 1 dir_failure_fs ⟨[], []⟩ =
        some (⟨[] ++ blob_lines (blob_count (fun _ => false)
            [("/trunk/a.txt".toList, (⟨svn_fs_path_change_add⟩ : svn_fs_path_change_t))]),
          [] ++ banner 1 ++ "svn: Can't read node\n".toList⟩, EXIT_FAILURE)) :=
  ⟨⟨by decide, by decide, Or.inl ⟨_, rfl⟩, rfl,
    (access_failure_not_fatal failing_fs 2 1 ⟨[], []⟩ (by decide) (by decide)
      (Or.inl ⟨_, rfl⟩)).1 _ rfl,
    (access_failure_not_fatal failing_fs 2 1 ⟨[], []⟩ (by decide) (by decide)
      (Or.inl ⟨_, rfl⟩)).2.2.2.2.1⟩,
   ⟨Or.inr (Or.inr (Or.inr ⟨dir_failure_root, _, ("/trunk/b.txt".toList, ⟨svn_fs_path_change_add⟩),
      _, rfl, rfl, by decide, rfl⟩)), by decide,
    (access_failure_not_fatal dir_failure_fs 2 1 ⟨[], []⟩ (by decide) (by decide)
      (Or.inr (Or.inr (Or.inr ⟨dir_failure_root, _,
        ("/trunk/b.txt".toList, ⟨svn_fs_path_change_add⟩), _, rfl, rfl, by decide,
        rfl⟩)))).2.2.2.1 dir_failure_root
      [("/trunk/a.txt".toList, ⟨svn_fs_path_change_add⟩)]
      ("/trunk/b.txt".toList, ⟨svn_fs_path_change_add⟩) [] (fun _ => false)
      ⟨"svn: Can't read node\n".toList⟩ rfl rfl rfl
      (by intro x hx; simp only [List.mem_singleton] at hx; subst hx; rfl) rfl (by decide)⟩⟩

/-- C10: one call of `export_revision` without access failure, `k` being the
number of in-scope non-directory records whose kind is not Deleted, `k < 2^32`.
The loop starts with `mark = 1`; what it appends to standard output is the blob
directives with the marks 1, 2, ..., k in this order; the `M 644` lines of
`file_changes` are as many, the j-th carrying the mark j and the relative path
of the j-th such record; and the call ends as `export_finish` ends from that
state, which writes nothing but the commit directive after the blobs. -/
theorem marks_of_one_revision (fs : svn_fs_t) (rev : Nat) (root_obj : svn_fs_root_t)
    (changes : List (List Char × svn_fs_path_change_t)) (dir : List Char → Bool) (io : Streams)
    (h : no_access_failure fs rev root_obj changes dir)
    (hk : blob_count dir changes < 2 ^ 32) :
    ∃ st : LoopState,
      export_loop root_obj changes
        { file_changes := [], mark := 1, io := io.err (banner rev) } = (st, none) ∧
      export_revision rev fs io = export_finish st ∧
      st.io.stdout = io.stdout ++
        (List.map blob_text (List.range' 1 (blob_count dir changes))).flatten ∧
      st.file_changes.filter is_M_line =
        List.zipWith (fun j e => M_line j (relativize e.1))
          (List.range' 1 (blob_count dir changes)) (blob_entries dir changes) ∧
      (st.file_changes.filter is_M_line).length = blob_count dir changes ∧
      (∀ res, export_revision rev fs io = some res → ∃ commit : List Char,
        res.1.stdout = io.stdout ++
          (List.map blob_text (List.range' 1 (blob_count dir changes))).flatten ++ commit) := by
  have hb : 1 + ((changes.filter (in_scope dir)).filter (fun e => !is_delete e)).length
      ≤ 2 ^ 32 := by
    have := hk
    unfold blob_count blob_entries at this
    omega
  have hM : (lines_from 1 (changes.filter (in_scope dir))).filter is_M_line =
      List.zipWith (fun j e => M_line j (relativize e.1))
        (List.range' 1 (blob_count dir changes)) (blob_entries dir changes) := by
    rw [lines_from_eq 1 _ hb, change_lines_M]
    rfl
  refine ⟨_, export_loop_ok root_obj dir changes h.2.2.2 _, ?_, ?_, ?_, ?_, ?_⟩
  · rw [export_revision_ok h]
    rfl
  · simp only [Streams.out, Streams.err]
    rw [blobs_from_eq 1 _ hb]
    rfl
  · simpa using hM
  · simp only [List.nil_append]
    rw [hM]
    simp [blob_count]
  · intro res hres
    rw [export_revision_ok h, blobs_from_eq 1 _ hb] at hres
    unfold export_finish at hres
    simp only at hres
    split at hres
    · refine ⟨[], ?_⟩
      simp only [Option.some.injEq] at hres
      rw [← hres]
      simp [Streams.out, Streams.err, blob_count, blob_entries]
    · split at hres
      · simp at hres
      · rename_i body _
        refine ⟨"commit refs/heads/master\n".toList ++ body ++ "\n\n".toList, ?_⟩
        simp only [Option.some.injEq] at hres
        rw [← hres]
        simp [Streams.out, Streams.err, blob_count, blob_entries]

/-- An instance: the revision that deletes `/trunk/x.txt` and adds `/trunk/y.txt`. -/
theorem marks_of_one_revision_witness :
    no_access_failure delete_add_fs 1 delete_add_root
      [("/trunk/x.txt".toList, ⟨svn_fs_path_change_delete⟩),
        ("/trunk/y.txt".toList, ⟨svn_fs_path_change_add⟩)] (fun _ => false) ∧
    blob_count (fun _ => false)
      [("/trunk/x.txt".toList, ⟨svn_fs_path_change_delete⟩),
        ("/trunk/y.txt".toList, ⟨svn_fs_path_change_add⟩)] < 2 ^ 32 ∧
    ∃ st : LoopState,
      export_loop delete_add_root
        [("/trunk/x.txt".toList, ⟨svn_fs_path_change_delete⟩),
          ("/trunk/y.txt".toList, ⟨svn_fs_path_change_add⟩)]
        { file_changes := [], mark := 1, io := (⟨[], []⟩ : Streams).err (banner 1) } = (st, none) ∧
      export_revision 1 delete_add_fs ⟨[], []⟩ = export_finish st ∧
      st.io.stdout = [] ++
        (List.map blob_text (List.range' 1 (blob_count (fun _ => false)
          [("/trunk/x.txt".toList, ⟨svn_fs_path_change_delete⟩),
            ("/trunk/y.txt".toList, ⟨svn_fs_path_change_add⟩)]))).flatten :=
  ⟨⟨rfl, rfl, rfl, fun _ _ => rfl⟩, by decide,
   (marks_of_one_revision delete_add_fs 1 delete_add_root
      [("/trunk/x.txt".toList, ⟨svn_fs_path_change_delete⟩),
        ("/trunk/y.txt".toList, ⟨svn_fs_path_change_add⟩)] (fun _ => false) ⟨[], []⟩
      ⟨rfl, rfl, rfl, fun _ _ => rfl⟩ (by decide)).imp
    (fun _ hst => ⟨hst.1, hst.2.1, hst.2.2.1⟩)⟩

end SvnFastExport
